import Mathlib

set_option maxRecDepth 2048

/-!
Verification of the core algorithms of the `fips203` Rust crate (an
implementation of FIPS 203 ML-KEM) against its natural-language
specification.

The development shallowly embeds the crate's source files:

* `src/types.rs`     — the field element `Z` and its add/sub/mul,
* `src/helpers.rs`   — compression, decompression and the hash wrappers,
* `src/byte_fns.rs`  — `byte_encode` / `byte_decode`,
* `src/ntt.rs`       — `ntt`, `ntt_inv`, `multiply_ntts`, the zeta table,
* `src/sampling.rs`  — `sample_ntt`, `sample_poly_cbd`,
* `src/k_pke.rs`     — `k_pke_encrypt`, `k_pke_decrypt`,
* `src/ml_kem.rs`    — `ml_kem_decaps`,
* `src/lib.rs`       — `EncapsKey/DecapsKey::try_from_bytes`.

Machine integers are embedded as `Nat` with explicit wrapping (`% 2^32`)
exactly where the Rust source relies on wrapping semantics.  Byte arrays
are embedded as `List Nat` (each entry < 256), and 256-coefficient
polynomials either as `List Nat` or as total functions `Nat → Nat`
(the source's `[Z; 256]` is a total map on indices 0..255; indices ≥ 256
are never read or written by the embedded loops).

The SHA3 family (SHA3-256, SHA3-512, SHAKE128, SHAKE256) is an external
interface of the crate (the `sha3` crate; spec §1/§6 "The implementation
consumes only two external interfaces: a SHA3 family ... and a
cryptographically secure random byte source").  It is modelled from the
FIPS 202 specification at the bottom of the definitions section.
-/

/-! # Definitions -/

/-! ## Constants (`src/lib.rs`) -/

/-- `const Q: u16 = 3329` from `src/lib.rs`. -/
def Q : Nat := 3329

/-- `const ZETA: u16 = 17` from `src/lib.rs`. -/
def ZETA : Nat := 17

/-- The Barrett constant `M` of `Z::mul` in `src/types.rs`:
`const M: u64 = ((1u64 << 36) + Q as u64 - 1) / Q as u64`. -/
def barrettM : Nat := ((1 <<< 36) + Q - 1) / Q

/-! ## Field arithmetic (`src/types.rs`)

`Z` stores a `u16` and computes in `u32`.  We embed the value as a `Nat`
and make the `u32` wrapping of the source explicit. -/

/-- `u32` wrap-around. -/
def w32 (x : Nat) : Nat := x % 4294967296

/-- `u32::wrapping_sub` for operands already reduced below `2^32`. -/
def wsub32 (a b : Nat) : Nat := (a + 4294967296 - b) % 4294967296

/-- The shared reduction line of `Z::add` and `Z::sub` in `src/types.rs`:
`res.wrapping_add((res >> 16) & (u32::from(Q)))`. -/
def condAddQ (res : Nat) : Nat := w32 (res + ((res >>> 16) &&& Q))

/-- `Z::add` from `src/types.rs`:
`res = a + b; res = res.wrapping_sub(Q); res = res.wrapping_add((res >> 16) & Q)`. -/
def zAdd (a b : Nat) : Nat := condAddQ (wsub32 (a + b) Q)

/-- `Z::sub` from `src/types.rs`:
`res = a.wrapping_sub(b); res = res.wrapping_add((res >> 16) & Q)`. -/
def zSub (a b : Nat) : Nat := condAddQ (wsub32 a b)

/-- `Z::mul` from `src/types.rs`:
`prod = a * b; quot = ((prod as u64 * M) >> 36) as u32; rem = prod - quot * Q`
(the local `prod` and `quot` are written out).  For canonical inputs
(`a, b < Q`) none of the `u32`/`u64` operations overflow and the final
subtraction does not underflow (`zMul_eq_mod` below), so plain `Nat`
arithmetic is faithful. -/
def zMul (a b : Nat) : Nat := a * b - ((a * b * barrettM) >>> 36) * Q

/-! ## Compression / decompression (`src/helpers.rs`) -/

/-- Loop body of `compress_vector` from `src/helpers.rs`:
`y = (x << d) + (Q >> 1); result = ((y as u64 * M as u64) >> 36) as u16`
(the local `const M: u32` there has the same value as `barrettM`). -/
def compressAt (d x : Nat) : Nat := (((x <<< d) + (Q >>> 1)) * barrettM) >>> 36

/-- `compress_vector` from `src/helpers.rs`: applies `compressAt` in place
to every coefficient. -/
def compress_vector (d : Nat) (inout : List Nat) : List Nat :=
  inout.map (compressAt d)

/-- Loop body of `decompress_vector` from `src/helpers.rs`:
`qy = Q * y + (1 << d) - 1; result = (qy >> d) as u16`. -/
def decompressAt (d y : Nat) : Nat := (Q * y + (1 <<< d) - 1) >>> d

/-- `decompress_vector` from `src/helpers.rs`. -/
def decompress_vector (d : Nat) (inout : List Nat) : List Nat :=
  inout.map (decompressAt d)

/-! ## Byte codec (`src/byte_fns.rs`)

State of both loops: `(temp, bit_index, output so far)`, embedded as
`Nat × Nat × List Nat`. -/

/-- Inner `while bit_index > 7` loop of `byte_encode` (Algorithm 4):
drops full bytes out of the working register `temp`
(`temp.to_le_bytes()[0]` is the least-significant byte `temp % 256`,
and `temp >>= 8`). -/
def encodeEmit (temp bit : Nat) (acc : List Nat) : Nat × Nat × List Nat :=
  if _h : 7 < bit then encodeEmit (temp >>> 8) (bit - 8) (acc ++ [temp % 256])
  else (temp, bit, acc)
termination_by bit
decreasing_by omega

/-- One iteration of the outer `for coeff in integers_f` loop of
`byte_encode`: `temp |= (coeff & ((1 << d) - 1)) << bit_index;
bit_index += d`, then the inner byte-emitting loop. -/
def encodeStep (d : Nat) (st : Nat × Nat × List Nat) (coeff : Nat) :
    Nat × Nat × List Nat :=
  encodeEmit (st.1 ||| ((coeff &&& ((1 <<< d) - 1)) <<< st.2.1)) (st.2.1 + d) st.2.2

/-- `byte_encode` from `src/byte_fns.rs` (Algorithm 4 `ByteEncode_d`). -/
def byte_encode (d : Nat) (F : List Nat) : List Nat :=
  (F.foldl (encodeStep d) (0, 0, [])).2.2

/-- Inner `while bit_index >= d` loop of `byte_decode` (Algorithm 5):
masks `d`-bit integers out of the working register
(`z = (temp & ((1 << d) - 1)); temp >>= d`).  The `0 < d` guard only
excludes `d = 0`, where the source's loop would not terminate; every
call site has `1 ≤ d ≤ 12`. -/
def decodeEmit (d temp bit : Nat) (acc : List Nat) : Nat × Nat × List Nat :=
  if _h : 0 < d ∧ d ≤ bit then
    decodeEmit d (temp >>> d) (bit - d) (acc ++ [temp &&& ((1 <<< d) - 1)])
  else (temp, bit, acc)
termination_by bit
decreasing_by omega

/-- One iteration of the outer `for byte in bytes_b` loop of
`byte_decode`: `temp |= u32::from(byte) << bit_index; bit_index += 8`,
then the inner integer-emitting loop. -/
def decodeStep (d : Nat) (st : Nat × Nat × List Nat) (byte : Nat) :
    Nat × Nat × List Nat :=
  decodeEmit d (st.1 ||| (byte <<< st.2.1)) (st.2.1 + 8) st.2.2

/-- The integer array written by `byte_decode` before its final range
validation. -/
def decodeRaw (d : Nat) (B : List Nat) : List Nat :=
  (B.foldl (decodeStep d) (0, 0, [])).2.2

/-- `byte_decode` from `src/byte_fns.rs` (Algorithm 5 `ByteDecode_d`)
including the modulus check
`ensure!(integers_f.iter().all(|e| e.get_u32() < m))` with
`m = if d < 12 { 1 << d } else { Q }`; `none` is the `Err` case. -/
def byte_decode (d : Nat) (B : List Nat) : Option (List Nat) :=
  if (decodeRaw d B).all (fun e => e < (if d < 12 then 1 <<< d else Q)) then
    some (decodeRaw d B)
  else none

/-! ## `EncapsKey::try_from_bytes` (`src/lib.rs`) -/

/-- The `K` sequential `byte_decode(12, ·)?` calls of
`EncapsKey::try_from_bytes`: the early-return `?` succeeds iff every
384-byte block of the packed `t̂` decodes. -/
def ekBlocksOk (K : Nat) (ek : List Nat) : Bool :=
  (List.range K).all
    (fun i => (byte_decode 12 (List.take 384 (List.drop (384 * i) ek))).isSome)

/-- `EncapsKey::try_from_bytes` from `src/lib.rs`: validates the packed
`t̂` blocks and on success returns the key holding exactly the input
bytes (`Ok(EncapsKey { 0: ek })`). -/
def encapsKeyFromBytes (K : Nat) (ek : List Nat) : Option (List Nat) :=
  if ekBlocksOk K ek then some ek else none

/-! ## Verification vocabulary for the codec

`lval base l` is the value of `l` read as little-endian base-`base`
digits; it ties both codec loops to the packed bit stream. -/

/-- Little-endian digit value. -/
def lval (base : Nat) (l : List Nat) : Nat :=
  l.foldr (fun a r => a + base * r) 0

/-! ## NTT (`src/ntt.rs`)

Polynomials are embedded as total functions `Nat → Nat` (the source's
`[Z; 256]`); a butterfly is two `Function.update`s in the source's
in-place write order.  The source threads a running index `k` through
both loop nests (`k ← 1`, `k += 1` per group, forward; `k ← 127`,
`k -= 1` per group, inverse).  We embed the zetas consumed by one stage
as an explicit list: at forward stage `len` there are `m = 128/len`
groups and the groups of all previous stages number
`1 + 2 + ⋯ + m/2 = m - 1`, so group `gi` of the stage reads
`ZETA_TABLE[(m + gi) << 1]`; at inverse stage `len` the previous stages
consumed `64 + 32 + ⋯ + 2m = 128 - 2m` zetas counting down from `127`,
so group `gi` reads `ZETA_TABLE[(2m - 1 - gi) << 1]`. -/

/-- Bit reversal of an 8-bit value, `(i as u8).reverse_bits()` from
`gen_zeta_table` in `src/ntt.rs`. -/
def bitRev8 (i : Nat) : Nat :=
  (List.range 8).foldl (fun acc j => acc ||| (((i >>> j) &&& 1) <<< (7 - j))) 0

/-- `gen_zeta_table` from `src/ntt.rs`:
`result[(i as u8).reverse_bits() as usize] = x as u16; x = (x * ZETA) % Q`
over `i in 0..256`, starting from `x = 1`. -/
def gen_zeta_table : List Nat :=
  ((List.range 256).foldl
    (fun (st : List Nat × Nat) i => (st.1.set (bitRev8 i) st.2, st.2 * ZETA % Q))
    (List.replicate 256 0, 1)).1

/-- `static ZETA_TABLE: [u16; 256] = gen_zeta_table()` from `src/ntt.rs`. -/
def ZETA_TABLE : List Nat := gen_zeta_table

/-- The zeta value a group reads: `ZETA_TABLE[k << 1]` in `src/ntt.rs`. -/
def zetaFwd (k : Nat) : Nat := ZETA_TABLE.getD (k <<< 1) 0

/-- Body of the forward inner loop (`src/ntt.rs` lines 8–10 of Alg. 8):
`t = f_hat[j+len].mul(zeta); f_hat[j+len] = f_hat[j].sub(t);
f_hat[j] = f_hat[j].add(t)` — the second write reads the original
`f_hat[j]`, unchanged by the first write since `j ≠ j + len`. -/
def nttButterfly (zeta len j : Nat) (f : Nat → Nat) : Nat → Nat :=
  Function.update
    (Function.update f (j + len) (zSub (f j) (zMul (f (j + len)) zeta)))
    j (zAdd (f j) (zMul (f (j + len)) zeta))

/-- The `for j in start..(start + len)` loop of Alg. 8 for one group. -/
def nttGroup (zeta len start : Nat) (f : Nat → Nat) : Nat → Nat :=
  (List.range len).foldl (fun g jj => nttButterfly zeta len (start + jj) g) f

/-- The `for start in (0..256).step_by(2 * len)` loop of Alg. 8, with the
zeta of each group supplied by the list `zs`. -/
def nttStageAux (len : Nat) : List Nat → Nat → (Nat → Nat) → Nat → Nat
  | [], _, f => f
  | z :: zs, start, f => nttStageAux len zs (start + 2 * len) (nttGroup z len start f)

/-- The zetas consumed by forward stage `len` (see the section comment
for the `k`-threading argument). -/
def nttFwdZetas (len : Nat) : List Nat :=
  (List.range (128 / len)).map (fun gi => zetaFwd (128 / len + gi))

/-- `ntt` from `src/ntt.rs` (Algorithm 8): the `for len in [128, 64, 32,
16, 8, 4, 2]` loop nest. -/
def ntt (f : Nat → Nat) : Nat → Nat :=
  [128, 64, 32, 16, 8, 4, 2].foldl (fun g len => nttStageAux len (nttFwdZetas len) 0 g) f

/-- Body of the inverse inner loop (`src/ntt.rs` lines 8–10 of Alg. 9):
`t = f[j]; f[j] = t.add(f[j+len]); f[j+len] = zeta.mul(f[j+len].sub(t))`
— the second write reads the original `f[j+len]` (unchanged by the first
write) and `t`, the original `f[j]`. -/
def nttInvButterfly (zeta len j : Nat) (f : Nat → Nat) : Nat → Nat :=
  Function.update (Function.update f j (zAdd (f j) (f (j + len))))
    (j + len) (zMul zeta (zSub (f (j + len)) (f j)))

/-- One group of Alg. 9. -/
def nttInvGroup (zeta len start : Nat) (f : Nat → Nat) : Nat → Nat :=
  (List.range len).foldl (fun g jj => nttInvButterfly zeta len (start + jj) g) f

/-- The `start` loop of Alg. 9 with the group zetas supplied as a list. -/
def nttInvStageAux (len : Nat) : List Nat → Nat → (Nat → Nat) → Nat → Nat
  | [], _, f => f
  | z :: zs, start, f => nttInvStageAux len zs (start + 2 * len) (nttInvGroup z len start f)

/-- The zetas consumed by inverse stage `len` (see the section comment). -/
def nttInvZetas (len : Nat) : List Nat :=
  (List.range (128 / len)).map (fun gi => zetaFwd (2 * (128 / len) - 1 - gi))

/-- The `for len in [2, 4, 8, 16, 32, 64, 128]` loop nest of Alg. 9,
before the final scaling. -/
def nttInvCore (f : Nat → Nat) : Nat → Nat :=
  [2, 4, 8, 16, 32, 64, 128].foldl (fun g len => nttInvStageAux len (nttInvZetas len) 0 g) f

/-- `ntt_inv` from `src/ntt.rs` (Algorithm 9), including the final
`f.iter_mut().for_each(|item| *item = item.mul(z3303))`. -/
def ntt_inv (f : Nat → Nat) : Nat → Nat :=
  fun p => zMul (nttInvCore f p) 3303

/-! ## Verification vocabulary for the NTT: a mirror over `ZMod 3329`

The roundtrip argument is algebraic, so each loop shape above gets a
mirror acting on `Nat → ZMod 3329`; a transport relation (`ntt_rel`
below) ties the `Nat` loops to the mirror. -/

/-- Mirror of `nttButterfly` over `ZMod 3329`. -/
def bfZ (z : ZMod 3329) (len j : Nat) (F : Nat → ZMod 3329) : Nat → ZMod 3329 :=
  Function.update (Function.update F (j + len) (F j - F (j + len) * z))
    j (F j + F (j + len) * z)

/-- Mirror of `nttGroup`. -/
def grpZ (z : ZMod 3329) (len start : Nat) (F : Nat → ZMod 3329) : Nat → ZMod 3329 :=
  (List.range len).foldl (fun g jj => bfZ z len (start + jj) g) F

/-- Mirror of `nttStageAux`. -/
def stageZ (len : Nat) : List (ZMod 3329) → Nat → (Nat → ZMod 3329) → Nat → ZMod 3329
  | [], _, F => F
  | z :: zs, start, F => stageZ len zs (start + 2 * len) (grpZ z len start F)

/-- Mirror of `nttInvButterfly`. -/
def ibfZ (z : ZMod 3329) (len j : Nat) (F : Nat → ZMod 3329) : Nat → ZMod 3329 :=
  Function.update (Function.update F j (F j + F (j + len)))
    (j + len) (z * (F (j + len) - F j))

/-- Mirror of `nttInvGroup`. -/
def igrpZ (z : ZMod 3329) (len start : Nat) (F : Nat → ZMod 3329) : Nat → ZMod 3329 :=
  (List.range len).foldl (fun g jj => ibfZ z len (start + jj) g) F

/-- Mirror of `nttInvStageAux`. -/
def istageZ (len : Nat) : List (ZMod 3329) → Nat → (Nat → ZMod 3329) → Nat → ZMod 3329
  | [], _, F => F
  | z :: zs, start, F => istageZ len zs (start + 2 * len) (igrpZ z len start F)

/-- `nttFwdZetas` cast into `ZMod 3329`. -/
def zetasFZ (len : Nat) : List (ZMod 3329) :=
  (nttFwdZetas len).map (fun x : Nat => (x : ZMod 3329))

/-- `nttInvZetas` cast into `ZMod 3329`. -/
def zetasIZ (len : Nat) : List (ZMod 3329) :=
  (nttInvZetas len).map (fun x : Nat => (x : ZMod 3329))

/-- Mirror of `ntt`. -/
def nttZ (F : Nat → ZMod 3329) : Nat → ZMod 3329 :=
  [128, 64, 32, 16, 8, 4, 2].foldl (fun G len => stageZ len (zetasFZ len) 0 G) F

/-- Mirror of `nttInvCore`. -/
def nttInvCoreZ (F : Nat → ZMod 3329) : Nat → ZMod 3329 :=
  [2, 4, 8, 16, 32, 64, 128].foldl (fun G len => istageZ len (zetasIZ len) 0 G) F

/-- Mirror of `ntt_inv`. -/
def nttInvZ (F : Nat → ZMod 3329) : Nat → ZMod 3329 :=
  fun p => nttInvCoreZ F p * 3303

/-- Transport relation between a `Nat`-valued polynomial and its
`ZMod 3329` mirror: canonical below 256 and pointwise congruent. -/
def ntt_rel (f : Nat → Nat) (F : Nat → ZMod 3329) : Prop :=
  ∀ p, p < 256 → f p < Q ∧ (f p : ZMod 3329) = F p

/-! ## SHA3 family

The crate consumes the SHA3 family (SHA3-256, SHA3-512, SHAKE128,
SHAKE256) from the external `sha3` crate (spec §1/§6), so there is no
repository source for it; the functions below are modelled from FIPS 202.
Bytes are `List Nat` entries; a Keccak state is 25 lanes of 64-bit words
(`List Nat`, each `< 2^64`). -/

/-- Modelled from the spec: the 64-bit mask `2^64 - 1`. -/
def mask64 : Nat := 18446744073709551615

/-- Modelled from the spec: 64-bit left rotation. -/
def rotl64 (a n : Nat) : Nat := ((a <<< n) ||| (a >>> (64 - n))) &&& mask64

/-- Modelled from the spec: lane `(x, y)` of a Keccak state. -/
def lane (A : List Nat) (x y : Nat) : Nat := A.getD (x + 5 * y) 0

/-- Modelled from the spec (θ, step 1): column parity. -/
def keccakC (A : List Nat) (x : Nat) : Nat :=
  lane A x 0 ^^^ lane A x 1 ^^^ lane A x 2 ^^^ lane A x 3 ^^^ lane A x 4

/-- Modelled from the spec (θ, step 2). -/
def keccakD (A : List Nat) (x : Nat) : Nat :=
  keccakC A ((x + 4) % 5) ^^^ rotl64 (keccakC A ((x + 1) % 5)) 1

/-- Modelled from the spec: the θ step. -/
def thetaStep (A : List Nat) : List Nat :=
  (List.range 25).map (fun l => A.getD l 0 ^^^ keccakD A (l % 5))

/-- Modelled from the spec: the ρ rotation offsets, produced by the
`(x, y) ← (y, (2x + 3y) mod 5)` walk with offset `(t+1)(t+2)/2 mod 64`
written at each visited lane (lane `(0,0)` keeps offset `0`). -/
def rhoOffsets : List Nat :=
  ((List.range 24).foldl
    (fun (st : Nat × Nat × List Nat) t =>
      (st.2.1, (2 * st.1 + 3 * st.2.1) % 5,
       st.2.2.set (st.1 + 5 * st.2.1) ((t + 1) * (t + 2) / 2 % 64)))
    (1, 0, List.replicate 25 0)).2.2

/-- Modelled from the spec: the ρ step. -/
def rhoStep (A : List Nat) : List Nat :=
  (List.range 25).map (fun l => rotl64 (A.getD l 0) (rhoOffsets.getD l 0))

/-- Modelled from the spec: the π step, `A'[x, y] = A[(x + 3y) mod 5, x]`. -/
def piStep (A : List Nat) : List Nat :=
  (List.range 25).map (fun l => lane A ((l % 5 + 3 * (l / 5)) % 5) (l % 5))

/-- Modelled from the spec: the χ step. -/
def chiStep (A : List Nat) : List Nat :=
  (List.range 25).map (fun l =>
    lane A (l % 5) (l / 5) ^^^
      ((lane A ((l % 5 + 1) % 5) (l / 5) ^^^ mask64) &&&
        lane A ((l % 5 + 2) % 5) (l / 5)))

/-- Modelled from the spec: one step of the degree-8 LFSR of
Algorithm 5 (`rc`), on a byte-sized register. -/
def lfsrStep (r : Nat) : Nat :=
  if 128 ≤ r then ((r <<< 1) ^^^ 369) % 512 else r <<< 1

/-- Modelled from the spec: `rc(t)` is the low bit of the LFSR register
after `t` steps from `1`. -/
def rcBit (t : Nat) : Nat :=
  ((List.range t).foldl (fun r _ => lfsrStep r) 1) &&& 1

/-- Modelled from the spec: the ι round constant of round `ir`, with bit
`2^j - 1` equal to `rc(j + 7·ir)`. -/
def roundConst (ir : Nat) : Nat :=
  (List.range 7).foldl (fun acc jj => acc ||| (rcBit (jj + 7 * ir) <<< (2 ^ jj - 1))) 0

/-- Modelled from the spec: the ι step. -/
def iotaStep (ir : Nat) (A : List Nat) : List Nat :=
  A.set 0 (A.getD 0 0 ^^^ roundConst ir)

/-- Modelled from the spec: one Keccak-f[1600] round. -/
def keccakRound (A : List Nat) (ir : Nat) : List Nat :=
  iotaStep ir (chiStep (piStep (rhoStep (thetaStep A))))

/-- Modelled from the spec: Keccak-f[1600] (24 rounds). -/
def keccakF (A : List Nat) : List Nat :=
  (List.range 24).foldl keccakRound A

/-- Modelled from the spec: XOR a rate-sized block of bytes into the
state (little-endian lanes; lanes past the block are XORed with `0`). -/
def stateXorBlock (A : List Nat) (block : List Nat) : List Nat :=
  (List.range 25).map (fun l => A.getD l 0 ^^^ lval 256 ((block.drop (8 * l)).take 8))

/-- Modelled from the spec: the state as 200 bytes (little-endian lanes). -/
def stateBytes (A : List Nat) : List Nat :=
  (List.range 200).map (fun i => (A.getD (i / 8) 0 >>> (8 * (i % 8))) % 256)

/-- Modelled from the spec: absorb a padded message, one rate-sized
block at a time. -/
def absorbBlocks (rate : Nat) (A msg : List Nat) : List Nat :=
  if _h : msg.length = 0 ∨ rate = 0 then A
  else absorbBlocks rate (keccakF (stateXorBlock A (msg.take rate))) (msg.drop rate)
termination_by msg.length
decreasing_by rw [List.length_drop]; omega

/-- Modelled from the spec: `pad10*1` at byte granularity, with the
domain-separation suffix folded into the first pad byte. -/
def pad10x1 (rate sfx : Nat) (msg : List Nat) : List Nat :=
  msg ++ (if rate - msg.length % rate = 1 then [sfx ||| 128]
          else [sfx] ++ List.replicate (rate - msg.length % rate - 2) 0 ++ [128])

/-- Modelled from the spec: squeeze `outLen` bytes. -/
def squeezeAux (rate : Nat) (A : List Nat) (outLen : Nat) : List Nat :=
  if _h : outLen ≤ rate ∨ rate = 0 then (stateBytes A).take outLen
  else (stateBytes A).take rate ++ squeezeAux rate (keccakF A) (outLen - rate)
termination_by outLen
decreasing_by omega

/-- Modelled from the spec: the Keccak sponge. -/
def sponge (rate sfx : Nat) (msg : List Nat) (outLen : Nat) : List Nat :=
  squeezeAux rate (absorbBlocks rate (List.replicate 25 0) (pad10x1 rate sfx msg)) outLen

/-- Modelled from the spec: SHA3-256 (rate 136, suffix `0x06`). -/
def sha3_256 (msg : List Nat) : List Nat := sponge 136 6 msg 32

/-- Modelled from the spec: SHA3-512 (rate 72, suffix `0x06`). -/
def sha3_512 (msg : List Nat) : List Nat := sponge 72 6 msg 64

/-- Modelled from the spec: SHAKE128 (rate 168, suffix `0x1F`). -/
def shake128 (msg : List Nat) (outLen : Nat) : List Nat := sponge 168 31 msg outLen

/-- Modelled from the spec: SHAKE256 (rate 136, suffix `0x1F`). -/
def shake256 (msg : List Nat) (outLen : Nat) : List Nat := sponge 136 31 msg outLen

/-! ## Hash wrappers (`src/helpers.rs`) -/

/-- `h` from `src/helpers.rs`: SHA3-256 of the input. -/
def hashH (bytes : List Nat) : List Nat := sha3_256 bytes

/-- `g` from `src/helpers.rs`: SHA3-512 split into two 32-byte halves. -/
def hashG (bytes : List Nat) : List Nat × List Nat :=
  ((sha3_512 bytes).take 32, (sha3_512 bytes).drop 32)

/-- `j` from `src/helpers.rs`: 32 bytes of SHAKE256 over `z ∥ ct`. -/
def hashJ (z ct : List Nat) : List Nat := shake256 (z ++ ct) 32

/-- `prf` from `src/helpers.rs`: `ETA_64` bytes of SHAKE256 over `s ∥ b`. -/
def prf (eta64 : Nat) (s : List Nat) (b : Nat) : List Nat :=
  shake256 (s ++ [b]) eta64

/-- `xof` from `src/helpers.rs`: the SHAKE128 reader over `rho ∥ i ∥ j`,
modelled as a 3072-byte prefix of the stream (the source hands
`sample_ntt` an unbounded reader and draws until 256 coefficients are
accepted; 3072 bytes is 1024 draws, far beyond the 256 needed — the
model and the source agree unless rejection sampling exceeds this
prefix). -/
def xof (rho : List Nat) (i j : Nat) : List Nat :=
  shake128 (rho ++ [i, j]) 3072

/-! ## Sampling (`src/sampling.rs`) -/

/-- Loop of `sample_ntt` from `src/sampling.rs` (Algorithm 6): draw 3
bytes, form `d1 = b0 + 256·(b1 mod 16)` and `d2 = ⌊b1/16⌋ + 16·b2`, and
keep each while fewer than 256 coefficients are accepted. -/
def sampleNTTAux : List Nat → List Nat → List Nat
  | b0 :: b1 :: b2 :: rest, acc =>
    if acc.length < 256 then
      sampleNTTAux rest
        (let acc1 := if b0 + 256 * (b1 &&& 15) < Q then acc ++ [b0 + 256 * (b1 &&& 15)] else acc
         if (b1 >>> 4) + 16 * b2 < Q ∧ acc1.length < 256
         then acc1 ++ [(b1 >>> 4) + 16 * b2] else acc1)
    else acc
  | _, acc => acc

/-- `sample_ntt` from `src/sampling.rs` applied to a byte stream. -/
def sample_ntt (stream : List Nat) : List Nat := sampleNTTAux stream []

/-- `count_ones` from `src/sampling.rs` (SWAR popcount, three steps). -/
def count_ones (x : Nat) : Nat :=
  ((((x &&& 1431655765) + ((x >>> 1) &&& 1431655765)) &&& 858993459) +
      ((((x &&& 1431655765) + ((x >>> 1) &&& 1431655765)) >>> 2) &&& 858993459)) &&& 252645135
    + (((((x &&& 1431655765) + ((x >>> 1) &&& 1431655765)) &&& 858993459) +
      ((((x &&& 1431655765) + ((x >>> 1) &&& 1431655765)) >>> 2) &&& 858993459)) >>> 4) &&& 252645135

/-- Inner `while bit_index >= 2*eta` loop of `sample_poly_cbd` from
`src/sampling.rs`: emits `x - y (mod q)` where `x` and `y` are popcounts
of consecutive `eta`-bit groups. -/
def cbdEmit (eta temp bit : Nat) (acc : List Nat) : Nat × Nat × List Nat :=
  if _h : 0 < eta ∧ 2 * eta ≤ bit then
    cbdEmit eta (temp >>> (2 * eta)) (bit - 2 * eta)
      (acc ++ [zSub (count_ones (temp &&& ((1 <<< eta) - 1)))
                    (count_ones ((temp >>> eta) &&& ((1 <<< eta) - 1)))])
  else (temp, bit, acc)
termination_by bit
decreasing_by omega

/-- One iteration of the `for byte in byte_array_b` loop of
`sample_poly_cbd`. -/
def cbdStep (eta : Nat) (st : Nat × Nat × List Nat) (byte : Nat) :
    Nat × Nat × List Nat :=
  cbdEmit eta (st.1 ||| (byte <<< st.2.1)) (st.2.1 + 8) st.2.2

/-- `sample_poly_cbd` from `src/sampling.rs` (Algorithm 7, SWAR form);
`eta` is recovered from the input length as in the source
(`byte_array_b.len() >> 6`). -/
def sample_poly_cbd (B : List Nat) : List Nat :=
  (B.foldl (cbdStep (B.length >>> 6)) (0, 0, [])).2.2

/-! ## Polynomial and matrix operations (`src/helpers.rs`, `src/ntt.rs`)

A polynomial is a 256-entry `List Nat`; a vector is `K` polynomials. -/

/-- Coefficientwise `Z::add`, the inner loop of `add_vecs`. -/
def polyAdd (a b : List Nat) : List Nat :=
  (List.range 256).map (fun n => zAdd (a.getD n 0) (b.getD n 0))

/-- Coefficientwise `Z::sub`, the `w[i] = v[i].sub(yy[i])` loop of
`k_pke_decrypt`. -/
def polySub (a b : List Nat) : List Nat :=
  (List.range 256).map (fun n => zSub (a.getD n 0) (b.getD n 0))

/-- `add_vecs` from `src/helpers.rs`. -/
def add_vecs (K : Nat) (va vb : List (List Nat)) : List (List Nat) :=
  (List.range K).map (fun i => polyAdd (va.getD i []) (vb.getD i []))

/-- `base_case_multiply` from `src/ntt.rs` (Algorithm 11). -/
def base_case_multiply (a0 a1 b0 b1 gamma : Nat) : Nat × Nat :=
  (zAdd (zMul a0 b0) (zMul (zMul a1 b1) gamma), zAdd (zMul a0 b1) (zMul a1 b0))

/-- `multiply_ntts` from `src/ntt.rs` (Algorithm 10): 128 base-case
multiplications with `gamma = ZETA_TABLE[i ^ 0x80]`. -/
def multiply_ntts (f g : List Nat) : List Nat :=
  (List.range 128).foldl
    (fun acc i =>
      acc ++ [(base_case_multiply (f.getD (2 * i) 0) (f.getD (2 * i + 1) 0)
                 (g.getD (2 * i) 0) (g.getD (2 * i + 1) 0)
                 (ZETA_TABLE.getD (i ^^^ 128) 0)).1,
              (base_case_multiply (f.getD (2 * i) 0) (f.getD (2 * i + 1) 0)
                 (g.getD (2 * i) 0) (g.getD (2 * i + 1) 0)
                 (ZETA_TABLE.getD (i ^^^ 128) 0)).2])
    []

/-- `dot_t_prod` from `src/helpers.rs`. -/
def dot_t_prod (K : Nat) (u v : List (List Nat)) : List Nat :=
  (List.range K).foldl
    (fun res jj => polyAdd res (multiply_ntts (u.getD jj []) (v.getD jj [])))
    (List.replicate 256 0)

/-- `mul_mat_t_vec` from `src/helpers.rs`. -/
def mul_mat_t_vec (K : Nat) (a : List (List (List Nat))) (u : List (List Nat)) :
    List (List Nat) :=
  (List.range K).map (fun i =>
    (List.range K).foldl
      (fun acc jj => polyAdd acc (multiply_ntts ((a.getD jj []).getD i []) (u.getD jj [])))
      (List.replicate 256 0))

/-- `gen_a_hat` from `src/k_pke.rs`: entry `(i, j)` is
`sample_ntt(xof(rho, j, i))` (note the transposed indices, as in the
source). -/
def gen_a_hat (K : Nat) (rho : List Nat) : List (List (List Nat)) :=
  (List.range K).map (fun i => (List.range K).map (fun jj => sample_ntt (xof rho jj i)))

/-- List-level wrapper for `ntt` (the source's `[Z; 256]` in-place call). -/
def nttL (l : List Nat) : List Nat :=
  (List.range 256).map (fun p => ntt (fun i => l.getD i 0) p)

/-- List-level wrapper for `ntt_inv`. -/
def nttInvL (l : List Nat) : List Nat :=
  (List.range 256).map (fun p => ntt_inv (fun i => l.getD i 0) p)

/-! ## K-PKE (`src/k_pke.rs`) and ML-KEM decapsulation (`src/ml_kem.rs`) -/

/-- Sequence of `byte_decode(d, ·)?` calls over consecutive `32·d`-byte
blocks (the decode loops of `k_pke_encrypt` and `k_pke_decrypt`). -/
def decodeVec (d : Nat) : Nat → List Nat → Option (List (List Nat))
  | 0, _ => some []
  | n + 1, bytes =>
    (byte_decode d (bytes.take (32 * d))).bind (fun p =>
      (decodeVec d n (bytes.drop (32 * d))).map (fun ps => p :: ps))

/-- Infallible tail of `k_pke_encrypt` (steps 3–24 of Algorithm 13)
once `t̂` and the message have decoded. -/
def encryptBody (K eta1_64 eta2_64 du dv : Nat) (ek : List Nat)
    (t_hat : List (List Nat)) (mu0 randomness : List Nat) : List Nat :=
  let rho := (ek.drop (384 * K)).take 32
  let a_hat := gen_a_hat K rho
  let r := (List.range K).map (fun i => sample_poly_cbd (prf eta1_64 randomness i))
  let e1 := (List.range K).map (fun i => sample_poly_cbd (prf eta2_64 randomness (K + i)))
  let e2 := sample_poly_cbd (prf eta2_64 randomness (2 * K))
  let r_hat := r.map nttL
  let u := add_vecs K ((mul_mat_t_vec K a_hat r_hat).map nttInvL) e1
  let v := polyAdd (polyAdd (nttInvL (dot_t_prod K t_hat r_hat)) e2)
    (decompress_vector 1 mu0)
  ((List.range K).foldl
    (fun acc i => acc ++ byte_encode du (compress_vector du (u.getD i []))) [])
    ++ byte_encode dv (compress_vector dv v)

/-- `k_pke_encrypt` from `src/k_pke.rs` (Algorithm 13); `none` is the
`Err` case (a failed `t̂` or message decode). -/
def k_pke_encrypt (K eta1_64 eta2_64 du dv : Nat) (ek m randomness : List Nat) :
    Option (List Nat) :=
  (decodeVec 12 K ek).bind (fun t_hat =>
    (byte_decode 1 m).map (fun mu0 =>
      encryptBody K eta1_64 eta2_64 du dv ek t_hat mu0 randomness))

/-- Infallible tail of `k_pke_decrypt` (steps 6–8 of Algorithm 14). -/
def decryptBody (K du dv : Nat) (s_hat u0 : List (List Nat)) (v0 : List Nat) :
    List Nat :=
  byte_encode 1 (compress_vector 1 (polySub (decompress_vector dv v0)
    (nttInvL (dot_t_prod K s_hat ((u0.map (decompress_vector du)).map nttL)))))

/-- `k_pke_decrypt` from `src/k_pke.rs` (Algorithm 14). -/
def k_pke_decrypt (K du dv : Nat) (dk ct : List Nat) : Option (List Nat) :=
  (decodeVec du K (ct.take (32 * du * K))).bind (fun u0 =>
    (byte_decode dv ((ct.drop (32 * du * K)).take (32 * dv))).bind (fun v0 =>
      (decodeVec 12 K dk).map (fun s_hat => decryptBody K du dv s_hat u0 v0)))

/-- `ml_kem_decaps` from `src/ml_kem.rs` (Algorithm 17): slice `dk` into
`dk_pke ∥ ek_pke ∥ h ∥ z`, decrypt, derive `(K', r')` and `K̄`,
re-encrypt, and select `K̄` exactly when the re-encryption differs from
`ct` (the `conditional_assign` on `ct.ct_ne(&c_prime)`). -/
def ml_kem_decaps (K eta1_64 eta2_64 du dv : Nat) (dk ct : List Nat) :
    Option (List Nat) :=
  (k_pke_decrypt K du dv (dk.take (384 * K)) ct).bind (fun mPrime =>
    (k_pke_encrypt K eta1_64 eta2_64 du dv ((dk.drop (384 * K)).take (384 * K + 32))
        mPrime (hashG (mPrime ++ (dk.drop (768 * K + 32)).take 32)).2).map
      (fun cPrime =>
        if ct = cPrime then (hashG (mPrime ++ (dk.drop (768 * K + 32)).take 32)).1
        else hashJ ((dk.drop (768 * K + 64)).take 32) ct))

/-- `DecapsKey::try_from_bytes` from `src/lib.rs`: validates the
embedded `ek` (via `EncapsKey::try_from_bytes`) and the stored `H(ek)`,
and on success returns the key holding exactly the input bytes. -/
def tryFromBytesDK (K : Nat) (dk : List Nat) : Option (List Nat) :=
  (encapsKeyFromBytes K ((dk.drop (384 * K)).take (384 * K + 32))).bind (fun _ =>
    if hashH ((dk.drop (384 * K)).take (384 * K + 32))
        = (dk.drop (768 * K + 32)).take 32
    then some dk else none)

/-- Concrete malformed decapsulation key: `384·K` bytes of `0xFF`
(an `s_hat` encoding whose coefficients all decode to `4095 ≥ q`),
followed by the all-zero `ek`, its hash, and an all-zero `z`. -/
def ekZero (K : Nat) : List Nat := List.replicate (384 * K + 32) 0

/-- The malformed decapsulation key built on `ekZero`. -/
def dkBad (K : Nat) : List Nat :=
  List.replicate (384 * K) 255 ++ ekZero K ++ hashH (ekZero K) ++ List.replicate 32 0

/-! # Theorems -/

/-! ## Barrett reduction -/

/-- Regrouping key fact: `Q * barrettM = 2^36 + 1655`. -/
lemma q_mul_barrettM : Q * barrettM = 2 ^ 36 + 1655 := by decide

/-- Core of the Barrett exactness argument, for `p = 3329·k + s` in
decomposed form. -/
lemma barrett_exact (k s : Nat) (hk : k ≤ 3327) (hs : s ≤ 3328) :
    (3329 * k + s) * 20642679 / 2 ^ 36 = k := by
  have h36 : (2:Nat) ^ 36 = 68719476736 := by norm_num
  have hbound : k * 1655 + s * 20642679 < 2 ^ 36 := by
    rw [h36]; omega
  calc (3329 * k + s) * 20642679 / 2 ^ 36
      = ((k * 1655 + s * 20642679) + 2 ^ 36 * k) / 2 ^ 36 := by
        have hnum : (3329 * k + s) * 20642679 =
            (k * 1655 + s * 20642679) + 2 ^ 36 * k := by
          rw [h36]; omega
        rw [hnum]
    _ = (k * 1655 + s * 20642679) / 2 ^ 36 + k := by
        rw [Nat.add_mul_div_left _ _ (by positivity)]
    _ = 0 + k := by rw [Nat.div_eq_of_lt hbound]
    _ = k := by omega

/-- The Barrett approximation is exact: for every product
`p ≤ 3328 * 3328` (which covers both `Z::mul` and `compress_vector`),
`(p * M) >> 36 = p / Q`. -/
lemma barrett_div {p : Nat} (hp : p ≤ 3328 * 3328) :
    (p * barrettM) >>> 36 = p / Q := by
  have hM : barrettM = 20642679 := by rfl
  have hQ : Q = 3329 := rfl
  rw [Nat.shiftRight_eq_div_pow, hM, hQ]
  have hk : p / 3329 ≤ 3327 := by omega
  have hs : p % 3329 ≤ 3328 := by omega
  have key := barrett_exact (p / 3329) (p % 3329) hk hs
  calc p * 20642679 / 2 ^ 36
      = (3329 * (p / 3329) + p % 3329) * 20642679 / 2 ^ 36 := by
        rw [Nat.div_add_mod p 3329]
    _ = p / 3329 := key

/-! ## Field arithmetic correctness -/

/-- `Z::add` computes addition mod `Q` on canonical residues. -/
lemma zAdd_eq_mod {a b : Nat} (ha : a < Q) (hb : b < Q) :
    zAdd a b = (a + b) % Q := by
  have hQ : Q = 3329 := rfl
  rw [hQ] at ha hb
  unfold zAdd condAddQ wsub32 w32
  rw [hQ]
  have h16 : (2:Nat) ^ 16 = 65536 := by norm_num
  by_cases h : 3329 ≤ a + b
  · have hres : (a + b + 4294967296 - 3329) % 4294967296 = a + b - 3329 := by omega
    rw [hres]
    have hshift : (a + b - 3329) >>> 16 = 0 := by
      rw [Nat.shiftRight_eq_div_pow, h16]; omega
    rw [hshift]
    have hand : (0 : Nat) &&& 3329 = 0 := by decide
    rw [hand]
    omega
  · have hres : (a + b + 4294967296 - 3329) % 4294967296 = a + b + 4294963967 := by
      omega
    rw [hres]
    have hshift : (a + b + 4294963967) >>> 16 = 65535 := by
      rw [Nat.shiftRight_eq_div_pow, h16]; omega
    rw [hshift]
    have hand : (65535 : Nat) &&& 3329 = 3329 := by decide
    rw [hand]
    omega

/-- `Z::sub` computes subtraction mod `Q` on canonical residues
(`Nat` form: `(a + Q - b) % Q`). -/
lemma zSub_eq_mod {a b : Nat} (ha : a < Q) (hb : b < Q) :
    zSub a b = (a + Q - b) % Q := by
  have hQ : Q = 3329 := rfl
  rw [hQ] at ha hb
  unfold zSub condAddQ wsub32 w32
  rw [hQ]
  have h16 : (2:Nat) ^ 16 = 65536 := by norm_num
  by_cases h : b ≤ a
  · have hres : (a + 4294967296 - b) % 4294967296 = a - b := by omega
    rw [hres]
    have hshift : (a - b) >>> 16 = 0 := by
      rw [Nat.shiftRight_eq_div_pow, h16]; omega
    rw [hshift]
    have hand : (0 : Nat) &&& 3329 = 0 := by decide
    rw [hand]
    omega
  · have hres : (a + 4294967296 - b) % 4294967296 = a + 4294967296 - b := by omega
    rw [hres]
    have hshift : (a + 4294967296 - b) >>> 16 = 65535 := by
      rw [Nat.shiftRight_eq_div_pow, h16]; omega
    rw [hshift]
    have hand : (65535 : Nat) &&& 3329 = 3329 := by decide
    rw [hand]
    omega

/-- `Z::mul` computes multiplication mod `Q` on canonical residues, with
the Barrett quotient already exact (no final conditional subtraction). -/
lemma zMul_eq_mod {a b : Nat} (ha : a < Q) (hb : b < Q) :
    zMul a b = a * b % Q := by
  unfold zMul
  have hp : a * b ≤ 3328 * 3328 := by
    have hQ : Q = 3329 := rfl
    rw [hQ] at ha hb
    exact Nat.mul_le_mul (by omega) (by omega)
  rw [barrett_div hp]
  have hQ : Q = 3329 := rfl
  rw [hQ]
  omega

lemma zAdd_lt {a b : Nat} (ha : a < Q) (hb : b < Q) : zAdd a b < Q := by
  rw [zAdd_eq_mod ha hb]; exact Nat.mod_lt _ (by decide)

lemma zSub_lt {a b : Nat} (ha : a < Q) (hb : b < Q) : zSub a b < Q := by
  rw [zSub_eq_mod ha hb]; exact Nat.mod_lt _ (by decide)

lemma zMul_lt {a b : Nat} (ha : a < Q) (hb : b < Q) : zMul a b < Q := by
  rw [zMul_eq_mod ha hb]; exact Nat.mod_lt _ (by decide)

/-- C4 (counterexample): the Barrett constant actually used by `Z::mul`
is `⌈2³⁶ / q⌉ = 20642679`, not `20159` as the claim states (`20159`
is `⌈2²⁶ / q⌉`); moreover with `20159` in place of `M` the reduction of
`3328 * 3328` would yield `11065597`, far outside `[0, q)`. -/
theorem c4_counterexample :
    barrettM ≠ 20159 ∧ barrettM = 20642679 ∧
      3328 * 3328 - ((3328 * 3328 * 20159) >>> 36) * Q = 11065597 ∧
      ¬ (11065597 < Q) := by decide

/-- C4 (amended): for all `a, b ∈ [0, q)`, `Z::add`, `Z::sub`, `Z::mul`
compute `(a + b) mod q`, `(a - b) mod q` and `(a * b) mod q`, each result
in the canonical range `[0, q)`; the Barrett reduction in `mul` uses the
constant `M = ⌈2³⁶ / q⌉ = 20642679` and already yields a value in
`[0, q)` with no final conditional subtraction. -/
theorem c4_z_arithmetic (a b : Nat) (ha : a < Q) (hb : b < Q) :
    zAdd a b = (a + b) % Q ∧
    (zSub a b : Int) = ((a : Int) - (b : Int)) % (Q : Int) ∧
    zMul a b = a * b % Q ∧
    zAdd a b < Q ∧ zSub a b < Q ∧ zMul a b < Q ∧
    barrettM = 20642679 := by
  refine ⟨zAdd_eq_mod ha hb, ?_, zMul_eq_mod ha hb,
    zAdd_lt ha hb, zSub_lt ha hb, zMul_lt ha hb, by decide⟩
  rw [zSub_eq_mod ha hb]
  have hle : b ≤ a + Q := by omega
  push_cast [Nat.cast_sub hle]
  have hQ : (Q : Int) = 3329 := by norm_num [Q]
  rw [hQ]
  omega

/-- C4 witness at `a = 3328`, `b = 3327`. -/
theorem c4_z_arithmetic_witness :
    (3328 < Q ∧ 3327 < Q) ∧
      (zAdd 3328 3327 = (3328 + 3327) % Q ∧
       (zSub 3328 3327 : Int) = ((3328 : Int) - (3327 : Int)) % (Q : Int) ∧
       zMul 3328 3327 = 3328 * 3327 % Q ∧
       zAdd 3328 3327 < Q ∧ zSub 3328 3327 < Q ∧ zMul 3328 3327 < Q ∧
       barrettM = 20642679) :=
  ⟨by decide, c4_z_arithmetic 3328 3327 (by decide) (by decide)⟩

/-! ## Compression -/

/-- What the `compress_vector` loop body computes, in closed form:
division rounded to nearest (`⌊(2^d·x + ⌊q/2⌋) / q⌋`), with no reduction
modulo `2^d`. -/
lemma compressAt_eq {d x : Nat} (hd : d ≤ 11) (hx : x < Q) :
    compressAt d x = (2 ^ d * x + 1664) / Q := by
  unfold compressAt
  have hy : (x <<< d) + (Q >>> 1) = 2 ^ d * x + 1664 := by
    rw [Nat.shiftLeft_eq]
    have : Q >>> 1 = 1664 := by decide
    rw [this]; ring
  rw [hy]
  have hple : 2 ^ d * x + 1664 ≤ 3328 * 3328 := by
    have h2d : (2:Nat) ^ d ≤ 2 ^ 11 := Nat.pow_le_pow_right (by norm_num) hd
    have hx' : x ≤ 3328 := by
      have hQ : Q = 3329 := rfl
      omega
    calc 2 ^ d * x + 1664 ≤ 2 ^ 11 * 3328 + 1664 := by
          exact Nat.add_le_add_right (Nat.mul_le_mul h2d hx') 1664
      _ ≤ 3328 * 3328 := by norm_num
  exact barrett_div hple

/-- The nearest-rounding identity used by the spec:
`⌊(N + ⌊q/2⌋)/q⌋ = ⌊(2N + q)/(2q)⌋` for odd `q = 3329`. -/
lemma round_div_identity (N : Nat) : (N + 1664) / 3329 = (2 * N + 3329) / 6658 := by
  omega

/-- The compressed value is bounded by `2^d` (it can equal `2^d`). -/
lemma compressAt_le {d x : Nat} (hd : d ≤ 11) (hx : x < Q) :
    compressAt d x ≤ 2 ^ d := by
  rw [compressAt_eq hd hx]
  have h2d : (1:Nat) ≤ 2 ^ d := Nat.one_le_two_pow
  have hx' : x ≤ 3328 := by
    have hQ : Q = 3329 := rfl
    omega
  have hnum : 2 ^ d * x + 1664 < 3329 * (2 ^ d + 1) := by nlinarith
  have := Nat.div_lt_of_lt_mul (by rw [Nat.mul_comm] at hnum; exact hnum)
  have hQ : Q = 3329 := rfl
  rw [hQ]
  omega

/-- C5 (counterexample): `compress_vector` at `d = 1`, `x = 3328` stores
`2 = 2^1`, which is not reduced mod `2^d` and not `< 2^d`; the claim's
value would be `⌊(2/q)·3328 + 1/2⌋ mod 2 = 0`. -/
theorem c5_counterexample :
    compress_vector 1 [3328] = [2] ∧ ¬ ((2:Nat) < 2 ^ 1) ∧
      (2 * 3328 + (Q + 1) / 2) / Q % 2 ^ 1 = 0 := by decide

/-- C5 (amended): for every `d ≤ 11` and coefficients in `[0, q)`,
`compress_vector` stores for `x` the value `⌊(2^d/q)·x + 1/2⌋`
(round to nearest, computed as `⌊(2^(d+1)·x + q) / (2q)⌋`), WITHOUT a
final reduction modulo `2^d`; every stored value is `≤ 2^d` (and the
value `2^d` itself does occur, see the counterexample). -/
theorem c5_compress_rounds (d : Nat) (hd : d ≤ 11) (l : List Nat)
    (hl : ∀ x ∈ l, x < Q) :
    compress_vector d l = l.map (fun x => (2 ^ (d + 1) * x + Q) / (2 * Q)) ∧
    ∀ y ∈ compress_vector d l, y ≤ 2 ^ d := by
  constructor
  · unfold compress_vector
    refine List.map_congr_left ?_
    intro x hx
    rw [compressAt_eq hd (hl x hx)]
    have hQ : Q = 3329 := rfl
    rw [hQ]
    have : 2 ^ (d+1) * x = 2 * (2 ^ d * x) := by ring
    rw [this]
    exact round_div_identity (2 ^ d * x)
  · intro y hy
    unfold compress_vector at hy
    rcases List.mem_map.mp hy with ⟨x, hx, rfl⟩
    exact compressAt_le hd (hl x hx)

/-- C5 witness at `d = 4`, `l = [0, 1664, 3328]`. -/
theorem c5_compress_rounds_witness :
    (4 ≤ 11 ∧ ∀ x ∈ [0, 1664, 3328], x < Q) ∧
      (compress_vector 4 [0, 1664, 3328] =
        [0, 1664, 3328].map (fun x => (2 ^ (4 + 1) * x + Q) / (2 * Q)) ∧
       ∀ y ∈ compress_vector 4 [0, 1664, 3328], y ≤ 2 ^ 4) :=
  ⟨⟨by norm_num, by decide⟩,
    c5_compress_rounds 4 (by norm_num) [0, 1664, 3328] (by decide)⟩

/-! ## Decompression -/

/-- C6 (code bug): `decompress_vector` adds `2^d - 1` before shifting
(`qy = Q * y + (1 << d) - 1`), i.e. computes the CEILING `⌈q·y/2^d⌉`,
whereas the claim (and the function's own doc comment `y → ⌈(q/2^d)·y⌋`,
which is FIPS 203's round-to-nearest) requires `(q·y + 2^(d-1)) >> d`.
At `d = 4` (the `dv` of ML-KEM-512/768) and `y = 1` the code stores
`⌈3344/16⌉ = 209` while the claim's value is `⌊3337/16⌋ = 208`. -/
theorem c6_decompress_divergence :
    decompress_vector 4 [1] = [209] ∧
      (Q * 1 + 2 ^ (4 - 1)) >>> 4 = 208 ∧ (209 : Nat) ≠ 208 := by decide

/-! ## Bit-level helper lemmas for the codec -/

/-- OR of a value into the cleared upper bits is addition. -/
lemma lor_shiftLeft_eq_add {a : Nat} (b : Nat) {n : Nat} (h : a < 2 ^ n) :
    a ||| (b <<< n) = a + b * 2 ^ n := by
  induction n generalizing a b with
  | zero =>
    interval_cases a
    simp [Nat.shiftLeft_zero]
  | succ n ih =>
    have hsh : b <<< (n + 1) = 2 * (b <<< n) := by
      rw [Nat.shiftLeft_succ, Nat.mul_comm]
    have hdiv : (a ||| (b <<< (n + 1))) / 2 = a / 2 ||| (b <<< n) := by
      rw [Nat.or_div_two, hsh, Nat.mul_div_cancel_left _ (by norm_num)]
    have hmod2 : (a ||| (b <<< (n + 1))) % 2 = a % 2 := by
      have hb2 : (b <<< (n + 1)) % 2 = 0 := by
        rw [hsh, Nat.mul_mod_right]
      rcases Nat.mod_two_eq_zero_or_one a with h2 | h2
      · rcases Nat.mod_two_eq_zero_or_one (a ||| (b <<< (n + 1))) with h1 | h1
        · omega
        · rcases Nat.or_mod_two_eq_one.mp h1 with h3 | h3 <;> omega
      · rw [h2]
        exact Nat.or_mod_two_eq_one.mpr (Or.inl h2)
    have ha2 : a / 2 < 2 ^ n := by
      have : a < 2 ^ n * 2 := by
        rw [← Nat.pow_succ]; exact h
      omega
    have ihx := ih (a := a / 2) b ha2
    have hx : a ||| (b <<< (n + 1)) =
        2 * ((a ||| (b <<< (n + 1))) / 2) + (a ||| (b <<< (n + 1))) % 2 :=
      (Nat.div_add_mod _ 2).symm ▸ by omega
    rw [hdiv, hmod2, ihx] at hx
    have hp : (2:Nat) ^ (n + 1) = 2 * 2 ^ n := by ring
    omega

/-- The source's `x & ((1 << d) - 1)` is `x % 2^d`. -/
lemma and_mask_eq_mod (x d : Nat) : x &&& ((1 <<< d) - 1) = x % 2 ^ d := by
  have h1 : (1:Nat) <<< d = 2 ^ d := by
    rw [Nat.shiftLeft_eq, Nat.one_mul]
  rw [h1, Nat.and_pow_two_sub_one_eq_mod]

lemma shiftRight_eq_div (x n : Nat) : x >>> n = x / 2 ^ n :=
  Nat.shiftRight_eq_div_pow x n

/-! ## Little-endian digit values -/

@[simp] lemma lval_nil (base : Nat) : lval base [] = 0 := rfl

@[simp] lemma lval_cons (base a : Nat) (l : List Nat) :
    lval base (a :: l) = a + base * lval base l := rfl

lemma lval_append_singleton (base a : Nat) (l : List Nat) :
    lval base (l ++ [a]) = lval base l + a * base ^ l.length := by
  induction l with
  | nil => simp [lval]
  | cons x xs ih =>
    simp only [List.cons_append, lval_cons, ih, List.length_cons]
    ring

lemma lval_lt (base : Nat) (l : List Nat) (h : ∀ x ∈ l, x < base) :
    lval base l < base ^ l.length := by
  induction l with
  | nil => simp
  | cons x xs ih =>
    have hx : x < base := h x (List.mem_cons_self x xs)
    have hxs : lval base xs < base ^ xs.length :=
      ih (fun y hy => h y (List.mem_cons_of_mem x hy))
    have hmul : base * lval base xs + base ≤ base * base ^ xs.length := by
      calc base * lval base xs + base = base * (lval base xs + 1) := by
            rw [Nat.mul_succ]
        _ ≤ base * base ^ xs.length := Nat.mul_le_mul_left base hxs
    simp only [lval_cons, List.length_cons, Nat.pow_succ]
    have hcomm : base ^ xs.length * base = base * base ^ xs.length :=
      Nat.mul_comm _ _
    omega

/-! ## Encoder loop invariants -/

/-- `256 ^ n` as a power of two. -/
lemma pow256_eq (n : Nat) : (256:Nat) ^ n = 2 ^ (8 * n) := by
  rw [show (256:Nat) = 2 ^ 8 by norm_num, ← pow_mul]

/-- Full specification of the byte-emitting loop `encodeEmit`:
it preserves the packed value, keeps bytes below 256 and leaves fewer
than 8 bits in the register. -/
lemma encodeEmit_spec :
    ∀ (bit temp : Nat) (acc : List Nat), temp < 2 ^ bit → (∀ x ∈ acc, x < 256) →
    (encodeEmit temp bit acc).1 < 2 ^ (encodeEmit temp bit acc).2.1 ∧
    (encodeEmit temp bit acc).2.1 < 8 ∧
    8 * (encodeEmit temp bit acc).2.2.length + (encodeEmit temp bit acc).2.1 =
      8 * acc.length + bit ∧
    lval 256 (encodeEmit temp bit acc).2.2 +
        (encodeEmit temp bit acc).1 * 2 ^ (8 * (encodeEmit temp bit acc).2.2.length) =
      lval 256 acc + temp * 2 ^ (8 * acc.length) ∧
    (∀ x ∈ (encodeEmit temp bit acc).2.2, x < 256) := by
  intro bit
  induction bit using Nat.strong_induction_on with
  | _ bit ih =>
    intro temp acc htemp hacc
    by_cases h : 7 < bit
    · rw [encodeEmit, dif_pos h]
      have hacc' : ∀ x ∈ acc ++ [temp % 256], x < 256 := by
        intro x hx
        rcases List.mem_append.mp hx with hx | hx
        · exact hacc x hx
        · rcases List.mem_singleton.mp hx with rfl
          exact Nat.mod_lt _ (by norm_num)
      have htemp' : temp >>> 8 < 2 ^ (bit - 8) := by
        rw [shiftRight_eq_div]
        have hsplit : (2:Nat) ^ bit = 2 ^ (bit - 8) * 2 ^ 8 := by
          rw [← pow_add]
          congr 1
          omega
        rw [hsplit] at htemp
        exact Nat.div_lt_of_lt_mul (by omega)
      have := ih (bit - 8) (by omega) (temp >>> 8) (acc ++ [temp % 256]) htemp' hacc'
      obtain ⟨h1, h2, h3, h4, h5⟩ := this
      refine ⟨h1, h2, ?_, ?_, h5⟩
      · rw [h3, List.length_append, List.length_singleton]
        omega
      · rw [h4, lval_append_singleton, List.length_append, List.length_singleton]
        rw [shiftRight_eq_div, pow256_eq]
        have hdm : temp = 256 * (temp / 2 ^ 8) + temp % 256 := by
          have : (2:Nat) ^ 8 = 256 := by norm_num
          rw [this]
          omega
        have hpow : (2:Nat) ^ (8 * (acc.length + 1)) = 2 ^ (8 * acc.length) * 256 := by
          rw [show 8 * (acc.length + 1) = 8 * acc.length + 8 by ring, pow_add]
          norm_num
        rw [hpow]
        have key : temp % 256 * 2 ^ (8 * acc.length) +
            temp / 2 ^ 8 * (2 ^ (8 * acc.length) * 256) =
            temp * 2 ^ (8 * acc.length) := by
          calc temp % 256 * 2 ^ (8 * acc.length) +
              temp / 2 ^ 8 * (2 ^ (8 * acc.length) * 256)
              = (256 * (temp / 2 ^ 8) + temp % 256) * 2 ^ (8 * acc.length) := by
                ring
            _ = temp * 2 ^ (8 * acc.length) := by rw [← hdm]
        omega
    · rw [encodeEmit, dif_neg h]
      exact ⟨htemp, show bit < 8 by omega, rfl, rfl, hacc⟩

/-- Invariant of the outer encoder loop: folding `encodeStep` over the
coefficient list appends the coefficients' low `d` bits to the packed
bit stream. -/
lemma encode_foldl_spec (d : Nat) (F : List Nat) :
    ∀ st : Nat × Nat × List Nat, st.1 < 2 ^ st.2.1 → st.2.1 < 8 →
    (∀ x ∈ st.2.2, x < 256) →
    ((F.foldl (encodeStep d) st).1 < 2 ^ (F.foldl (encodeStep d) st).2.1) ∧
    (F.foldl (encodeStep d) st).2.1 < 8 ∧
    (8 * (F.foldl (encodeStep d) st).2.2.length + (F.foldl (encodeStep d) st).2.1 =
      8 * st.2.2.length + st.2.1 + d * F.length) ∧
    (lval 256 (F.foldl (encodeStep d) st).2.2 +
        (F.foldl (encodeStep d) st).1 *
          2 ^ (8 * (F.foldl (encodeStep d) st).2.2.length) =
      lval 256 st.2.2 + st.1 * 2 ^ (8 * st.2.2.length) +
        lval (2 ^ d) (F.map (· % 2 ^ d)) * 2 ^ (8 * st.2.2.length + st.2.1)) ∧
    (∀ x ∈ (F.foldl (encodeStep d) st).2.2, x < 256) := by
  induction F with
  | nil =>
    intro st htemp hbit hacc
    refine ⟨htemp, hbit, by simp, by simp [lval], hacc⟩
  | cons c F ih =>
    intro st htemp hbit hacc
    rw [List.foldl_cons]
    -- one `encodeStep`: OR the masked coefficient into the register at
    -- position `bit_index`, then run the byte-emitting loop
    have hor : st.1 ||| ((c &&& ((1 <<< d) - 1)) <<< st.2.1) =
        st.1 + (c % 2 ^ d) * 2 ^ st.2.1 := by
      rw [and_mask_eq_mod]
      exact lor_shiftLeft_eq_add (c % 2 ^ d) htemp
    have htemp' : st.1 + (c % 2 ^ d) * 2 ^ st.2.1 < 2 ^ (st.2.1 + d) := by
      have hc : c % 2 ^ d < 2 ^ d := Nat.mod_lt _ (by positivity)
      have hdistr : c % 2 ^ d * 2 ^ st.2.1 + 2 ^ st.2.1 =
          (c % 2 ^ d + 1) * 2 ^ st.2.1 := by ring
      have h2 : (c % 2 ^ d + 1) * 2 ^ st.2.1 ≤ 2 ^ d * 2 ^ st.2.1 :=
        Nat.mul_le_mul_right _ (by omega)
      have hpa : (2:Nat) ^ (st.2.1 + d) = 2 ^ d * 2 ^ st.2.1 := by
        rw [pow_add, Nat.mul_comm]
      omega
    simp only [encodeStep, hor]
    have espec := encodeEmit_spec (st.2.1 + d)
      (st.1 + (c % 2 ^ d) * 2 ^ st.2.1) st.2.2 htemp' hacc
    obtain ⟨e1, e2, e3, e4, e5⟩ := espec
    have ihspec := ih (encodeEmit (st.1 + (c % 2 ^ d) * 2 ^ st.2.1)
      (st.2.1 + d) st.2.2) e1 e2 e5
    obtain ⟨i1, i2, i3, i4, i5⟩ := ihspec
    refine ⟨i1, i2, ?_, ?_, i5⟩
    · rw [List.length_cons, Nat.mul_succ]
      omega
    · rw [i4]
      have hexp : 8 * (encodeEmit (st.1 + (c % 2 ^ d) * 2 ^ st.2.1)
          (st.2.1 + d) st.2.2).2.2.length +
          (encodeEmit (st.1 + (c % 2 ^ d) * 2 ^ st.2.1)
            (st.2.1 + d) st.2.2).2.1 =
          8 * st.2.2.length + st.2.1 + d := by omega
      rw [e4, hexp]
      simp only [List.map_cons, lval_cons]
      have hp1 : (2:Nat) ^ (8 * st.2.2.length + st.2.1 + d) =
          2 ^ (8 * st.2.2.length) * 2 ^ st.2.1 * 2 ^ d := by
        rw [← pow_add, ← pow_add]
      have hp2 : (2:Nat) ^ (8 * st.2.2.length + st.2.1) =
          2 ^ (8 * st.2.2.length) * 2 ^ st.2.1 := by
        rw [← pow_add]
      rw [hp1, hp2]
      ring

/-- `byte_encode` on a 256-coefficient array emits exactly `32·d` bytes
whose packed little-endian value is the base-`2^d` value of the
coefficients' low `d` bits. -/
lemma byte_encode_spec (d : Nat) (F : List Nat)
    (hF : F.length = 256) :
    (byte_encode d F).length = 32 * d ∧ (∀ x ∈ byte_encode d F, x < 256) ∧
    lval 256 (byte_encode d F) = lval (2 ^ d) (F.map (· % 2 ^ d)) := by
  have h := encode_foldl_spec d F (0, 0, []) (by norm_num) (by norm_num)
    (by intro x hx; cases hx)
  obtain ⟨h1, h2, h3, h4, h5⟩ := h
  simp only [List.length_nil, Nat.mul_zero, Nat.zero_add, lval_nil,
    Nat.zero_mul, Nat.add_zero, pow_zero, Nat.mul_one] at h3 h4
  rw [hF] at h3
  unfold byte_encode
  set R := F.foldl (encodeStep d) (0, 0, []) with hR
  -- the total bit count `256·d` is a multiple of 8, so the register
  -- drains completely
  have hlen : R.2.2.length = 32 * d ∧ R.2.1 = 0 := by
    constructor <;> omega
  have htz : R.1 = 0 := by
    have := h1
    rw [hlen.2] at this
    omega
  refine ⟨hlen.1, h5, ?_⟩
  rw [htz] at h4
  simp only [Nat.zero_mul, Nat.add_zero] at h4
  omega

/-- Full specification of the integer-emitting loop `decodeEmit`. -/
lemma decodeEmit_spec (d : Nat) (hd : 1 ≤ d) :
    ∀ (bit temp : Nat) (acc : List Nat), temp < 2 ^ bit →
    (∀ x ∈ acc, x < 2 ^ d) →
    (decodeEmit d temp bit acc).1 < 2 ^ (decodeEmit d temp bit acc).2.1 ∧
    (decodeEmit d temp bit acc).2.1 < d ∧
    (d * (decodeEmit d temp bit acc).2.2.length + (decodeEmit d temp bit acc).2.1 =
      d * acc.length + bit) ∧
    (lval (2 ^ d) (decodeEmit d temp bit acc).2.2 +
        (decodeEmit d temp bit acc).1 *
          2 ^ (d * (decodeEmit d temp bit acc).2.2.length) =
      lval (2 ^ d) acc + temp * 2 ^ (d * acc.length)) ∧
    (∀ x ∈ (decodeEmit d temp bit acc).2.2, x < 2 ^ d) := by
  intro bit
  induction bit using Nat.strong_induction_on with
  | _ bit ih =>
    intro temp acc htemp hacc
    by_cases h : 0 < d ∧ d ≤ bit
    · rw [decodeEmit, dif_pos h]
      have hmask : temp &&& ((1 <<< d) - 1) = temp % 2 ^ d :=
        and_mask_eq_mod temp d
      have hacc' : ∀ x ∈ acc ++ [temp &&& ((1 <<< d) - 1)], x < 2 ^ d := by
        intro x hx
        rcases List.mem_append.mp hx with hx | hx
        · exact hacc x hx
        · rcases List.mem_singleton.mp hx with rfl
          rw [hmask]
          exact Nat.mod_lt _ (by positivity)
      have htemp' : temp >>> d < 2 ^ (bit - d) := by
        rw [shiftRight_eq_div]
        have h2d : (0:Nat) < 2 ^ d := by positivity
        rw [Nat.div_lt_iff_lt_mul h2d]
        have hsplit : (2:Nat) ^ (bit - d) * 2 ^ d = 2 ^ bit := by
          rw [← pow_add]
          congr 1
          omega
        rw [hsplit]
        exact htemp
      have := ih (bit - d) (by omega) (temp >>> d)
        (acc ++ [temp &&& ((1 <<< d) - 1)]) htemp' hacc'
      obtain ⟨h1, h2, h3, h4, h5⟩ := this
      refine ⟨h1, h2, ?_, ?_, h5⟩
      · rw [h3, List.length_append, List.length_singleton, Nat.mul_succ]
        omega
      · rw [h4, lval_append_singleton, List.length_append,
          List.length_singleton, shiftRight_eq_div, hmask]
        have hpm : ((2:Nat) ^ d) ^ acc.length = 2 ^ (d * acc.length) := by
          rw [← pow_mul]
        rw [hpm]
        have hdm : 2 ^ d * (temp / 2 ^ d) + temp % 2 ^ d = temp :=
          Nat.div_add_mod temp (2 ^ d)
        have hpow : (2:Nat) ^ (d * (acc.length + 1)) =
            2 ^ (d * acc.length) * 2 ^ d := by
          rw [show d * (acc.length + 1) = d * acc.length + d by ring, pow_add]
        rw [hpow]
        have key : temp % 2 ^ d * 2 ^ (d * acc.length) +
            temp / 2 ^ d * (2 ^ (d * acc.length) * 2 ^ d) =
            temp * 2 ^ (d * acc.length) := by
          calc temp % 2 ^ d * 2 ^ (d * acc.length) +
              temp / 2 ^ d * (2 ^ (d * acc.length) * 2 ^ d)
              = (2 ^ d * (temp / 2 ^ d) + temp % 2 ^ d) *
                  2 ^ (d * acc.length) := by ring
            _ = temp * 2 ^ (d * acc.length) := by rw [hdm]
        omega
    · rw [decodeEmit, dif_neg h]
      exact ⟨htemp, show bit < d by omega, rfl, rfl, hacc⟩

/-- Invariant of the outer decoder loop: folding `decodeStep` over the
byte list splits the packed little-endian bit stream into `d`-bit
integers. -/
lemma decode_foldl_spec (d : Nat) (hd : 1 ≤ d) (B : List Nat)
    (hB : ∀ b ∈ B, b < 256) :
    ∀ st : Nat × Nat × List Nat, st.1 < 2 ^ st.2.1 → st.2.1 < d →
    (∀ x ∈ st.2.2, x < 2 ^ d) →
    ((B.foldl (decodeStep d) st).1 < 2 ^ (B.foldl (decodeStep d) st).2.1) ∧
    (B.foldl (decodeStep d) st).2.1 < d ∧
    (d * (B.foldl (decodeStep d) st).2.2.length + (B.foldl (decodeStep d) st).2.1 =
      d * st.2.2.length + st.2.1 + 8 * B.length) ∧
    (lval (2 ^ d) (B.foldl (decodeStep d) st).2.2 +
        (B.foldl (decodeStep d) st).1 *
          2 ^ (d * (B.foldl (decodeStep d) st).2.2.length) =
      lval (2 ^ d) st.2.2 + st.1 * 2 ^ (d * st.2.2.length) +
        lval 256 B * 2 ^ (d * st.2.2.length + st.2.1)) ∧
    (∀ x ∈ (B.foldl (decodeStep d) st).2.2, x < 2 ^ d) := by
  induction B with
  | nil =>
    intro st htemp hbit hacc
    refine ⟨htemp, hbit, by simp, by simp [lval], hacc⟩
  | cons b B ih =>
    intro st htemp hbit hacc
    have hb : b < 256 := hB b (List.mem_cons_self b B)
    have hB' : ∀ x ∈ B, x < 256 := fun x hx => hB x (List.mem_cons_of_mem b hx)
    rw [List.foldl_cons]
    have hor : st.1 ||| (b <<< st.2.1) = st.1 + b * 2 ^ st.2.1 :=
      lor_shiftLeft_eq_add b htemp
    have htemp' : st.1 + b * 2 ^ st.2.1 < 2 ^ (st.2.1 + 8) := by
      have hdistr : b * 2 ^ st.2.1 + 2 ^ st.2.1 = (b + 1) * 2 ^ st.2.1 := by
        ring
      have h2 : (b + 1) * 2 ^ st.2.1 ≤ 256 * 2 ^ st.2.1 :=
        Nat.mul_le_mul_right _ (by omega)
      have hpa : (2:Nat) ^ (st.2.1 + 8) = 256 * 2 ^ st.2.1 := by
        rw [pow_add, Nat.mul_comm]
        norm_num
      omega
    simp only [decodeStep, hor]
    have espec := decodeEmit_spec d hd (st.2.1 + 8)
      (st.1 + b * 2 ^ st.2.1) st.2.2 htemp' hacc
    obtain ⟨e1, e2, e3, e4, e5⟩ := espec
    have ihspec := ih hB' (decodeEmit d (st.1 + b * 2 ^ st.2.1)
      (st.2.1 + 8) st.2.2) e1 e2 e5
    obtain ⟨i1, i2, i3, i4, i5⟩ := ihspec
    refine ⟨i1, i2, ?_, ?_, i5⟩
    · rw [List.length_cons, Nat.mul_succ]
      omega
    · rw [i4]
      have hexp : d * (decodeEmit d (st.1 + b * 2 ^ st.2.1)
          (st.2.1 + 8) st.2.2).2.2.length +
          (decodeEmit d (st.1 + b * 2 ^ st.2.1) (st.2.1 + 8) st.2.2).2.1 =
          d * st.2.2.length + st.2.1 + 8 := by omega
      rw [e4, hexp]
      simp only [lval_cons]
      have hp1 : (2:Nat) ^ (d * st.2.2.length + st.2.1 + 8) =
          2 ^ (d * st.2.2.length) * 2 ^ st.2.1 * 256 := by
        rw [pow_add, pow_add]
        norm_num
      have hp2 : (2:Nat) ^ (d * st.2.2.length + st.2.1) =
          2 ^ (d * st.2.2.length) * 2 ^ st.2.1 := by
        rw [← pow_add]
      rw [hp1, hp2]
      ring

/-- `byte_decode`'s raw output on a `32·d`-byte input: 256 integers,
each below `2^d`, packing back to the input's value. -/
lemma decodeRaw_spec (d : Nat) (hd : 1 ≤ d) (B : List Nat)
    (hB : ∀ b ∈ B, b < 256) (hlen : B.length = 32 * d) :
    (decodeRaw d B).length = 256 ∧ (∀ x ∈ decodeRaw d B, x < 2 ^ d) ∧
    lval (2 ^ d) (decodeRaw d B) = lval 256 B := by
  have h := decode_foldl_spec d hd B hB (0, 0, []) (by norm_num)
    (show 0 < d from hd) (by intro x hx; cases hx)
  obtain ⟨h1, h2, h3, h4, h5⟩ := h
  simp only [List.length_nil, Nat.mul_zero, Nat.zero_add, lval_nil,
    Nat.zero_mul, Nat.add_zero, pow_zero, Nat.mul_one] at h3 h4
  rw [hlen] at h3
  unfold decodeRaw
  set R := B.foldl (decodeStep d) (0, 0, []) with hR
  -- `8 · 32 · d = 256 · d` bits, so the final bit index is a multiple of
  -- `d` below `d`, hence `0`, and the register is empty
  have hlen' : R.2.2.length = 256 ∧ R.2.1 = 0 := by
    have hle : R.2.2.length ≤ 256 := by
      by_contra hgt
      push_neg at hgt
      have : d * 257 ≤ d * R.2.2.length := Nat.mul_le_mul_left d hgt
      omega
    have heq : R.2.1 = d * (256 - R.2.2.length) := by
      have hexpand : d * R.2.2.length + d * (256 - R.2.2.length) = d * 256 := by
        rw [← Nat.mul_add]
        congr 1
        omega
      omega
    rcases Nat.eq_zero_or_pos (256 - R.2.2.length) with hz | hpos
    · rw [hz, Nat.mul_zero] at heq
      constructor <;> omega
    · exfalso
      have : d ≤ d * (256 - R.2.2.length) := Nat.le_mul_of_pos_right d hpos
      omega
  have htz : R.1 = 0 := by
    have := h1
    rw [hlen'.2] at this
    omega
  refine ⟨hlen'.1, h5, ?_⟩
  rw [htz] at h4
  simp only [Nat.zero_mul, Nat.add_zero] at h4
  omega

/-- Two digit lists of the same length and base with in-range digits and
the same value are equal. -/
lemma lval_inj (base : Nat) (hbase : 1 < base) :
    ∀ (l₁ l₂ : List Nat), l₁.length = l₂.length →
    (∀ x ∈ l₁, x < base) → (∀ x ∈ l₂, x < base) →
    lval base l₁ = lval base l₂ → l₁ = l₂ := by
  intro l₁
  induction l₁ with
  | nil =>
    intro l₂ hlen _ _ _
    cases l₂ with
    | nil => rfl
    | cons y ys => simp at hlen
  | cons x xs ih =>
    intro l₂ hlen h₁ h₂ hv
    cases l₂ with
    | nil => simp at hlen
    | cons y ys =>
      simp only [lval_cons] at hv
      have hx : x < base := h₁ x (List.mem_cons_self x xs)
      have hy : y < base := h₂ y (List.mem_cons_self y ys)
      have hxy : x = y := by
        have hmx : (x + base * lval base xs) % base = x % base := by
          rw [Nat.add_mul_mod_self_left]
        have hmy : (y + base * lval base ys) % base = y % base := by
          rw [Nat.add_mul_mod_self_left]
        have : x % base = y % base := by
          rw [← hmx, ← hmy, hv]
        rwa [Nat.mod_eq_of_lt hx, Nat.mod_eq_of_lt hy] at this
      subst hxy
      have hrest : lval base xs = lval base ys := by
        have hbpos : 0 < base := by omega
        have := Nat.eq_of_mul_eq_mul_left hbpos (by omega :
          base * lval base xs = base * lval base ys)
        exact this
      have hlen' : xs.length = ys.length := by
        simpa using hlen
      rw [ih ys hlen' (fun z hz => h₁ z (List.mem_cons_of_mem x hz))
        (fun z hz => h₂ z (List.mem_cons_of_mem x hz)) hrest]

/-! ## Round trips of the byte codec (C8, C9, C7) -/

/-- Taking low `d` bits is the identity on in-range coefficients. -/
lemma map_mod_eq_self {d : Nat} {F : List Nat} (h : ∀ x ∈ F, x < 2 ^ d) :
    F.map (· % 2 ^ d) = F := by
  calc F.map (· % 2 ^ d) = F.map id := by
        refine List.map_congr_left ?_
        intro x hx
        exact Nat.mod_eq_of_lt (h x hx)
    _ = F := List.map_id F

/-- Success characterisation of `byte_decode`. -/
lemma byte_decode_eq_some_iff {d : Nat} {B X : List Nat} :
    byte_decode d B = some X ↔
      X = decodeRaw d B ∧
        ∀ e ∈ decodeRaw d B, e < (if d < 12 then 1 <<< d else Q) := by
  unfold byte_decode
  by_cases h : (decodeRaw d B).all
      (fun e => decide (e < if d < 12 then 1 <<< d else Q)) = true
  · rw [if_pos h]
    simp only [List.all_eq_true, decide_eq_true_eq] at h
    constructor
    · intro hs
      exact ⟨(Option.some.injEq _ _).mp hs |>.symm, h⟩
    · intro hc
      rw [hc.1]
  · rw [if_neg h]
    simp only [List.all_eq_true, decide_eq_true_eq] at h
    push_neg at h
    constructor
    · intro hs
      cases hs
    · intro hc
      obtain ⟨x, hx, hnx⟩ := h
      exact absurd (hc.2 x hx) (by omega)

/-- Failure characterisation of `byte_decode`. -/
lemma byte_decode_eq_none_iff {d : Nat} {B : List Nat} :
    byte_decode d B = none ↔
      ∃ e ∈ decodeRaw d B, (if d < 12 then 1 <<< d else Q) ≤ e := by
  unfold byte_decode
  by_cases h : (decodeRaw d B).all
      (fun e => decide (e < if d < 12 then 1 <<< d else Q)) = true
  · rw [if_pos h]
    simp only [List.all_eq_true, decide_eq_true_eq] at h
    constructor
    · intro hs
      cases hs
    · intro hc
      obtain ⟨x, hx, hge⟩ := hc
      exact absurd (h x hx) (by omega)
  · rw [if_neg h]
    simp only [List.all_eq_true, decide_eq_true_eq] at h
    push_neg at h
    constructor
    · intro _
      obtain ⟨x, hx, hnx⟩ := h
      exact ⟨x, hx, by omega⟩
    · intro _
      rfl

/-- For `d < 12` the modulus check always passes: `byte_decode` is total
in the ciphertext-decoding positions. -/
lemma byte_decode_isSome_of_lt12 {d : Nat} (hd1 : 1 ≤ d) (hd : d < 12)
    (B : List Nat) (hB : ∀ b ∈ B, b < 256) (hlen : B.length = 32 * d) :
    byte_decode d B = some (decodeRaw d B) := by
  obtain ⟨_, hlt, _⟩ := decodeRaw_spec d hd1 B hB hlen
  rw [byte_decode_eq_some_iff]
  refine ⟨rfl, ?_⟩
  intro e he
  have := hlt e he
  rw [if_pos hd]
  have h1 : (1:Nat) <<< d = 2 ^ d := by
    rw [Nat.shiftLeft_eq, Nat.one_mul]
  omega

/-- C8 (counterexample): at `d = 12` the round trip fails on the
all-`3329` array: every coefficient is `< 2^12`, yet decoding the
encoding reports a modulus-check error. -/
theorem c8_counterexample :
    byte_decode 12 (byte_encode 12 (List.replicate 256 3329)) = none := by
  obtain ⟨hlen, hlt, hval⟩ := byte_encode_spec 12 (List.replicate 256 3329)
    (by simp)
  have hmap : (List.replicate 256 3329).map (· % 2 ^ 12) =
      List.replicate 256 3329 := by
    refine map_mod_eq_self ?_
    intro x hx
    have := List.eq_of_mem_replicate hx
    omega
  rw [hmap] at hval
  obtain ⟨hrlen, hrlt, hrval⟩ := decodeRaw_spec 12 (by norm_num) _ hlt hlen
  have hF : decodeRaw 12 (byte_encode 12 (List.replicate 256 3329)) =
      List.replicate 256 3329 := by
    refine lval_inj (2 ^ 12) (by norm_num) _ _ ?_ hrlt ?_ ?_
    · rw [hrlen]; simp
    · intro x hx
      have := List.eq_of_mem_replicate hx
      omega
    · rw [hrval, hval]
  rw [byte_decode_eq_none_iff]
  refine ⟨3329, ?_, ?_⟩
  · rw [hF]
    exact List.mem_replicate.mpr ⟨by norm_num, rfl⟩
  · norm_num [Q]

/-- C8 (amended): the byte-codec round trips, with the coefficient bound
tightened at `d = 12` from `2^d` to `q` (the modulus check makes the
all-coefficients-below-`2^d` version false there, see the
counterexample).  Part one: decode ∘ encode is the identity on
256-coefficient arrays with coefficients below `2^d` (below `q` when
`d = 12`).  Part two: encode ∘ decode restores any `32·d`-byte string on
which decoding succeeds. -/
theorem c8_codec_roundtrip (d : Nat) (hd1 : 1 ≤ d) (hd2 : d ≤ 12) :
    (∀ F : List Nat, F.length = 256 →
      (∀ x ∈ F, x < (if d < 12 then 2 ^ d else Q)) →
      byte_decode d (byte_encode d F) = some F) ∧
    (∀ B X : List Nat, B.length = 32 * d → (∀ b ∈ B, b < 256) →
      byte_decode d B = some X → byte_encode d X = B) := by
  constructor
  · intro F hFlen hFbound
    have hFlt : ∀ x ∈ F, x < 2 ^ d := by
      intro x hx
      have := hFbound x hx
      by_cases h12 : d < 12
      · rw [if_pos h12] at this
        exact this
      · rw [if_neg h12] at this
        have hd12 : d = 12 := by omega
        subst hd12
        have hQ : Q = 3329 := rfl
        omega
    obtain ⟨hlen, hlt, hval⟩ := byte_encode_spec d F hFlen
    rw [map_mod_eq_self hFlt] at hval
    obtain ⟨hrlen, hrlt, hrval⟩ := decodeRaw_spec d hd1 _ hlt hlen
    have hF : decodeRaw d (byte_encode d F) = F := by
      refine lval_inj (2 ^ d) (Nat.one_lt_two_pow_iff.mpr (by omega)) _ _ ?_
        hrlt hFlt ?_
      · rw [hrlen, hFlen]
      · rw [hrval, hval]
    rw [byte_decode_eq_some_iff]
    refine ⟨hF.symm, ?_⟩
    intro e he
    rw [hF] at he
    have := hFbound e he
    by_cases h12 : d < 12
    · rw [if_pos h12] at this ⊢
      have h1 : (1:Nat) <<< d = 2 ^ d := by
        rw [Nat.shiftLeft_eq, Nat.one_mul]
      omega
    · rw [if_neg h12] at this ⊢
      exact this
  · intro B X hBlen hBbyte hdec
    obtain ⟨hX, _⟩ := byte_decode_eq_some_iff.mp hdec
    obtain ⟨hrlen, hrlt, hrval⟩ := decodeRaw_spec d hd1 B hBbyte hBlen
    obtain ⟨helen, helt, heval⟩ := byte_encode_spec d X
      (by rw [hX]; exact hrlen)
    rw [hX] at helen helt heval ⊢
    rw [map_mod_eq_self hrlt] at heval
    refine lval_inj 256 (by norm_num) _ _ ?_ helt hBbyte ?_
    · rw [helen, hBlen]
    · rw [heval, hrval]

/-- C8 witness at `d = 1`. -/
theorem c8_codec_roundtrip_witness :
    ((1:Nat) ≤ 1 ∧ (1:Nat) ≤ 12) ∧
      ((∀ F : List Nat, F.length = 256 →
        (∀ x ∈ F, x < (if 1 < 12 then 2 ^ 1 else Q)) →
        byte_decode 1 (byte_encode 1 F) = some F) ∧
      (∀ B X : List Nat, B.length = 32 * 1 → (∀ b ∈ B, b < 256) →
        byte_decode 1 B = some X → byte_encode 1 X = B)) :=
  ⟨⟨le_refl 1, by norm_num⟩, c8_codec_roundtrip 1 (le_refl 1) (by norm_num)⟩

/-- `encodeStep` only looks at the low `d` bits of the coefficient. -/
lemma encodeStep_congr (d : Nat) (st : Nat × Nat × List Nat) {c c' : Nat}
    (h : c % 2 ^ d = c' % 2 ^ d) : encodeStep d st c = encodeStep d st c' := by
  unfold encodeStep
  rw [and_mask_eq_mod, and_mask_eq_mod, h]

/-- C9: `byte_encode` depends only on the low `d` bits of each
coefficient: coefficient lists that agree modulo `2^d` pointwise encode
to the same bytes; in particular a coefficient `2^d` (which
`compress_vector` can store, see `c5_counterexample`) is encoded exactly
like the coefficient `0`. -/
theorem c9_encode_low_bits (d : Nat) (F F' : List Nat)
    (h : List.Forall₂ (fun a b => a % 2 ^ d = b % 2 ^ d) F F') :
    byte_encode d F = byte_encode d F' ∧
      ∀ rest : List Nat, byte_encode d (2 ^ d :: rest) =
        byte_encode d (0 :: rest) := by
  have main : ∀ (G G' : List Nat),
      List.Forall₂ (fun a b => a % 2 ^ d = b % 2 ^ d) G G' →
      ∀ st : Nat × Nat × List Nat,
      G.foldl (encodeStep d) st = G'.foldl (encodeStep d) st := by
    intro G G' hGG
    induction hGG with
    | nil => intro st; rfl
    | cons hab _ ih =>
      intro st
      rw [List.foldl_cons, List.foldl_cons, encodeStep_congr d st hab, ih]
  constructor
  · unfold byte_encode
    rw [main F F' h]
  · intro rest
    unfold byte_encode
    rw [main (2 ^ d :: rest) (0 :: rest) ?_]
    refine List.Forall₂.cons ?_ ?_
    · rw [Nat.mod_self, Nat.zero_mod]
    · refine List.forall₂_same.mpr ?_
      intro x _
      rfl

/-- C9 witness at `d = 3`, `F = [8, 9]`, `F' = [0, 1]`. -/
theorem c9_encode_low_bits_witness :
    List.Forall₂ (fun a b => a % 2 ^ 3 = b % 2 ^ 3) [8, 9] [0, 1] ∧
      (byte_encode 3 [8, 9] = byte_encode 3 [0, 1] ∧
        ∀ rest : List Nat, byte_encode 3 (2 ^ 3 :: rest) =
          byte_encode 3 (0 :: rest)) :=
  ⟨by decide, c9_encode_low_bits 3 [8, 9] [0, 1] (by decide)⟩

/-- C7: `byte_decode` at `d = 12` fails exactly when one of the decoded
12-bit coefficients reaches `q = 3329`, and consequently
`EncapsKey::try_from_bytes` fails exactly when one of the `K` packed
`t̂` blocks contains such a coefficient; on success the returned key
holds exactly the input bytes. -/
theorem c7_modulus_check :
    (∀ B : List Nat,
      (byte_decode 12 B = none ↔ ∃ e ∈ decodeRaw 12 B, Q ≤ e)) ∧
    (∀ K : Nat, ∀ ek : List Nat,
      (encapsKeyFromBytes K ek = none ↔
        ∃ i ∈ List.range K,
          ∃ e ∈ decodeRaw 12 (List.take 384 (List.drop (384 * i) ek)),
            Q ≤ e) ∧
      (∀ r : List Nat, encapsKeyFromBytes K ek = some r → r = ek)) := by
  have hB : ∀ B : List Nat,
      (byte_decode 12 B = none ↔ ∃ e ∈ decodeRaw 12 B, Q ≤ e) := by
    intro B
    rw [byte_decode_eq_none_iff, if_neg (by norm_num)]
  refine ⟨hB, ?_⟩
  intro K ek
  constructor
  · unfold encapsKeyFromBytes
    by_cases h : ekBlocksOk K ek = true
    · rw [if_pos h]
      unfold ekBlocksOk at h
      simp only [List.all_eq_true, decide_eq_true_eq] at h
      constructor
      · intro hs
        cases hs
      · rintro ⟨i, hi, e, he, hge⟩
        have hsome := h i hi
        have hnone : byte_decode 12 (List.take 384 (List.drop (384 * i) ek)) =
            none := (hB _).mpr ⟨e, he, hge⟩
        rw [hnone] at hsome
        cases hsome
    · rw [if_neg h]
      unfold ekBlocksOk at h
      simp only [List.all_eq_true, decide_eq_true_eq] at h
      push_neg at h
      constructor
      · intro _
        obtain ⟨i, hi, hnot⟩ := h
        have hnone : byte_decode 12 (List.take 384 (List.drop (384 * i) ek)) =
            none := by
          cases hopt : byte_decode 12 (List.take 384 (List.drop (384 * i) ek))
            with
          | none => rfl
          | some v =>
            rw [hopt] at hnot
            cases hnot rfl
        obtain ⟨e, he, hge⟩ := (hB _).mp hnone
        exact ⟨i, hi, e, he, hge⟩
      · intro _
        rfl
  · intro r hr
    unfold encapsKeyFromBytes at hr
    by_cases h : ekBlocksOk K ek = true
    · rw [if_pos h] at hr
      exact ((Option.some.injEq _ _).mp hr).symm
    · rw [if_neg h] at hr
      cases hr

/-! ## NTT: casts into `ZMod 3329` -/

lemma zAddCast {a b : Nat} (ha : a < Q) (hb : b < Q) :
    ((zAdd a b : Nat) : ZMod 3329) = (a : ZMod 3329) + (b : ZMod 3329) := by
  rw [zAdd_eq_mod ha hb]
  have hQ : Q = 3329 := rfl
  rw [hQ, ZMod.natCast_mod, Nat.cast_add]

lemma zSubCast {a b : Nat} (ha : a < Q) (hb : b < Q) :
    ((zSub a b : Nat) : ZMod 3329) = (a : ZMod 3329) - (b : ZMod 3329) := by
  rw [zSub_eq_mod ha hb]
  have hQ : Q = 3329 := rfl
  rw [hQ] at hb ⊢
  rw [ZMod.natCast_mod, Nat.cast_sub (by omega), Nat.cast_add, ZMod.natCast_self]
  ring

lemma zMulCast {a b : Nat} (ha : a < Q) (hb : b < Q) :
    ((zMul a b : Nat) : ZMod 3329) = (a : ZMod 3329) * (b : ZMod 3329) := by
  rw [zMul_eq_mod ha hb]
  have hQ : Q = 3329 := rfl
  rw [hQ, ZMod.natCast_mod, Nat.cast_mul]

/-! ## NTT: the zeta table -/

/-- Closed form of the zeta table (for cheap evaluation in proofs);
entry `BitRev8(i)` holds `17^i mod 3329`. -/
lemma zeta_table_val : ZETA_TABLE =
    [1, 3328, 1729, 1600, 2580, 749, 3289, 40, 2642, 687, 630, 2699, 1897,
     1432, 848, 2481, 1062, 2267, 1919, 1410, 193, 3136, 797, 2532, 2786,
     543, 3260, 69, 569, 2760, 1746, 1583, 296, 3033, 2447, 882, 1339, 1990,
     1476, 1853, 3046, 283, 56, 3273, 2240, 1089, 1333, 1996, 1426, 1903,
     2094, 1235, 535, 2794, 2882, 447, 2393, 936, 2879, 450, 1974, 1355, 821,
     2508, 289, 3040, 331, 2998, 3253, 76, 1756, 1573, 1197, 2132, 2304,
     1025, 2277, 1052, 2055, 1274, 650, 2679, 1977, 1352, 2513, 816, 632,
     2697, 2865, 464, 33, 3296, 1320, 2009, 1915, 1414, 2319, 1010, 1435,
     1894, 807, 2522, 452, 2877, 1438, 1891, 2868, 461, 1534, 1795, 2402,
     927, 2647, 682, 2617, 712, 1481, 1848, 648, 2681, 2474, 855, 3110, 219,
     1227, 2102, 910, 2419, 17, 3312, 2761, 568, 583, 2746, 2649, 680, 1637,
     1692, 723, 2606, 2288, 1041, 1100, 2229, 1409, 1920, 2662, 667, 3281,
     48, 233, 3096, 756, 2573, 2156, 1173, 3015, 314, 3050, 279, 1703, 1626,
     1651, 1678, 2789, 540, 1789, 1540, 1847, 1482, 952, 2377, 1461, 1868,
     2687, 642, 939, 2390, 2308, 1021, 2437, 892, 2388, 941, 733, 2596, 2337,
     992, 268, 3061, 641, 2688, 1584, 1745, 2298, 1031, 2037, 1292, 3220,
     109, 375, 2954, 2549, 780, 2090, 1239, 1645, 1684, 1063, 2266, 319,
     3010, 2773, 556, 757, 2572, 2099, 1230, 561, 2768, 2466, 863, 2594, 735,
     2804, 525, 1092, 2237, 403, 2926, 1026, 2303, 1143, 2186, 2150, 1179,
     2775, 554, 886, 2443, 1722, 1607, 1212, 2117, 1874, 1455, 1029, 2300,
     2110, 1219, 2935, 394, 885, 2444, 2154, 1175] := by decide

/-- The repository's own unit test for the table: `res[4] == 2580`. -/
lemma zeta_table_test : ZETA_TABLE.getD 4 0 = 2580 := by
  rw [zeta_table_val]; rfl

lemma zeta_table_all_lt : ∀ x ∈ ZETA_TABLE, x < Q := by
  rw [zeta_table_val]; decide

lemma zetaFwd_lt (k : Nat) : zetaFwd k < Q := by
  unfold zetaFwd
  by_cases h : k <<< 1 < ZETA_TABLE.length
  · rw [List.getD_eq_getElem _ _ h]
    exact zeta_table_all_lt _ (List.getElem_mem h)
  · rw [List.getD_eq_default _ _ (by omega)]
    decide

lemma nttFwdZetas_all_lt (len : Nat) : ∀ z ∈ nttFwdZetas len, z < Q := by
  intro z hz
  unfold nttFwdZetas at hz
  obtain ⟨gi, _, rfl⟩ := List.mem_map.mp hz
  exact zetaFwd_lt _

lemma nttInvZetas_all_lt (len : Nat) : ∀ z ∈ nttInvZetas len, z < Q := by
  intro z hz
  unfold nttInvZetas at hz
  obtain ⟨gi, _, rfl⟩ := List.mem_map.mp hz
  exact zetaFwd_lt _

/-! ## NTT: butterfly evaluation (mirror side) -/

lemma bfZ_lo (z : ZMod 3329) {len : Nat} (_hlen : 0 < len) (j : Nat)
    (F : Nat → ZMod 3329) : bfZ z len j F j = F j + F (j + len) * z := by
  unfold bfZ
  rw [Function.update_same]

lemma bfZ_hi (z : ZMod 3329) {len : Nat} (hlen : 0 < len) (j : Nat)
    (F : Nat → ZMod 3329) : bfZ z len j F (j + len) = F j - F (j + len) * z := by
  unfold bfZ
  rw [Function.update_noteq (by omega), Function.update_same]

lemma bfZ_other (z : ZMod 3329) {len j p : Nat} (h1 : p ≠ j) (h2 : p ≠ j + len)
    (F : Nat → ZMod 3329) : bfZ z len j F p = F p := by
  unfold bfZ
  rw [Function.update_noteq h1, Function.update_noteq h2]

lemma ibfZ_lo (z : ZMod 3329) {len : Nat} (hlen : 0 < len) (j : Nat)
    (F : Nat → ZMod 3329) : ibfZ z len j F j = F j + F (j + len) := by
  unfold ibfZ
  rw [Function.update_noteq (by omega), Function.update_same]

lemma ibfZ_hi (z : ZMod 3329) {len : Nat} (_hlen : 0 < len) (j : Nat)
    (F : Nat → ZMod 3329) : ibfZ z len j F (j + len) = z * (F (j + len) - F j) := by
  unfold ibfZ
  rw [Function.update_same]

lemma ibfZ_other (z : ZMod 3329) {len j p : Nat} (h1 : p ≠ j) (h2 : p ≠ j + len)
    (F : Nat → ZMod 3329) : ibfZ z len j F p = F p := by
  unfold ibfZ
  rw [Function.update_noteq h2, Function.update_noteq h1]

/-! ## NTT: group evaluation (mirror side)

A group of butterflies acts on the disjoint pairs
`(start+jj, start+jj+len)`, `jj < len`; the fold is characterised by
strong induction on the number of butterflies already applied. -/

lemma grp_fold_eval (z : ZMod 3329) (len start : Nat) (hlen : 0 < len)
    (F : Nat → ZMod 3329) :
    ∀ n, n ≤ len → ∀ p,
      ((start ≤ p ∧ p < start + n →
          ((List.range n).foldl (fun g jj => bfZ z len (start + jj) g) F) p
            = F p + F (p + len) * z) ∧
       (start + len ≤ p ∧ p < start + len + n →
          ((List.range n).foldl (fun g jj => bfZ z len (start + jj) g) F) p
            = F (p - len) - F p * z) ∧
       ((p < start ∨ (start + n ≤ p ∧ p < start + len) ∨ start + len + n ≤ p) →
          ((List.range n).foldl (fun g jj => bfZ z len (start + jj) g) F) p
            = F p)) := by
  intro n
  induction n with
  | zero =>
    intro _ p
    refine ⟨fun h => absurd h (by omega), fun h => absurd h (by omega), fun _ => ?_⟩
    simp [List.range_zero]
  | succ n ih =>
    intro hn p
    have hn' : n ≤ len := by omega
    rw [List.range_succ, List.foldl_append, List.foldl_cons, List.foldl_nil]
    refine ⟨?_, ?_, ?_⟩
    · rintro ⟨h1, h2⟩
      by_cases hp : p = start + n
      · subst hp
        rw [bfZ_lo z hlen]
        rw [(ih hn' (start + n)).2.2 (by omega),
            (ih hn' (start + n + len)).2.2 (by omega)]
      · have hne2 : p ≠ start + n + len := by omega
        rw [bfZ_other z hp hne2]
        exact (ih hn' p).1 ⟨h1, by omega⟩
    · rintro ⟨h1, h2⟩
      by_cases hp : p = start + n + len
      · subst hp
        rw [bfZ_hi z hlen]
        rw [(ih hn' (start + n)).2.2 (by omega),
            (ih hn' (start + n + len)).2.2 (by omega)]
        have harg : start + n + len - len = start + n := by omega
        rw [harg]
      · have hne1 : p ≠ start + n := by omega
        rw [bfZ_other z hne1 hp]
        exact (ih hn' p).2.1 ⟨h1, by omega⟩
    · intro h
      have hne1 : p ≠ start + n := by omega
      have hne2 : p ≠ start + n + len := by omega
      rw [bfZ_other z hne1 hne2]
      exact (ih hn' p).2.2 (by omega)

lemma igrp_fold_eval (z : ZMod 3329) (len start : Nat) (hlen : 0 < len)
    (F : Nat → ZMod 3329) :
    ∀ n, n ≤ len → ∀ p,
      ((start ≤ p ∧ p < start + n →
          ((List.range n).foldl (fun g jj => ibfZ z len (start + jj) g) F) p
            = F p + F (p + len)) ∧
       (start + len ≤ p ∧ p < start + len + n →
          ((List.range n).foldl (fun g jj => ibfZ z len (start + jj) g) F) p
            = z * (F p - F (p - len))) ∧
       ((p < start ∨ (start + n ≤ p ∧ p < start + len) ∨ start + len + n ≤ p) →
          ((List.range n).foldl (fun g jj => ibfZ z len (start + jj) g) F) p
            = F p)) := by
  intro n
  induction n with
  | zero =>
    intro _ p
    refine ⟨fun h => absurd h (by omega), fun h => absurd h (by omega), fun _ => ?_⟩
    simp [List.range_zero]
  | succ n ih =>
    intro hn p
    have hn' : n ≤ len := by omega
    rw [List.range_succ, List.foldl_append, List.foldl_cons, List.foldl_nil]
    refine ⟨?_, ?_, ?_⟩
    · rintro ⟨h1, h2⟩
      by_cases hp : p = start + n
      · subst hp
        rw [ibfZ_lo z hlen]
        rw [(ih hn' (start + n)).2.2 (by omega),
            (ih hn' (start + n + len)).2.2 (by omega)]
      · have hne2 : p ≠ start + n + len := by omega
        rw [ibfZ_other z hp hne2]
        exact (ih hn' p).1 ⟨h1, by omega⟩
    · rintro ⟨h1, h2⟩
      by_cases hp : p = start + n + len
      · subst hp
        rw [ibfZ_hi z hlen]
        rw [(ih hn' (start + n)).2.2 (by omega),
            (ih hn' (start + n + len)).2.2 (by omega)]
        have harg : start + n + len - len = start + n := by omega
        rw [harg]
      · have hne1 : p ≠ start + n := by omega
        rw [ibfZ_other z hne1 hp]
        exact (ih hn' p).2.1 ⟨h1, by omega⟩
    · intro h
      have hne1 : p ≠ start + n := by omega
      have hne2 : p ≠ start + n + len := by omega
      rw [ibfZ_other z hne1 hne2]
      exact (ih hn' p).2.2 (by omega)

/-- Lower-half evaluation of one mirror group. -/
lemma grpZ_lo (z : ZMod 3329) {len start p : Nat} (hlen : 0 < len)
    (h1 : start ≤ p) (h2 : p < start + len) (F : Nat → ZMod 3329) :
    grpZ z len start F p = F p + F (p + len) * z :=
  (grp_fold_eval z len start hlen F len le_rfl p).1 ⟨h1, h2⟩

/-- Upper-half evaluation of one mirror group. -/
lemma grpZ_hi (z : ZMod 3329) {len start p : Nat} (hlen : 0 < len)
    (h1 : start + len ≤ p) (h2 : p < start + 2 * len) (F : Nat → ZMod 3329) :
    grpZ z len start F p = F (p - len) - F p * z :=
  (grp_fold_eval z len start hlen F len le_rfl p).2.1 ⟨h1, by omega⟩

/-- A mirror group leaves indices outside `[start, start + 2*len)` alone. -/
lemma grpZ_frame (z : ZMod 3329) {len start p : Nat} (hlen : 0 < len)
    (h : p < start ∨ start + 2 * len ≤ p) (F : Nat → ZMod 3329) :
    grpZ z len start F p = F p :=
  (grp_fold_eval z len start hlen F len le_rfl p).2.2 (by omega)

lemma igrpZ_lo (z : ZMod 3329) {len start p : Nat} (hlen : 0 < len)
    (h1 : start ≤ p) (h2 : p < start + len) (F : Nat → ZMod 3329) :
    igrpZ z len start F p = F p + F (p + len) :=
  (igrp_fold_eval z len start hlen F len le_rfl p).1 ⟨h1, h2⟩

lemma igrpZ_hi (z : ZMod 3329) {len start p : Nat} (hlen : 0 < len)
    (h1 : start + len ≤ p) (h2 : p < start + 2 * len) (F : Nat → ZMod 3329) :
    igrpZ z len start F p = z * (F p - F (p - len)) :=
  (igrp_fold_eval z len start hlen F len le_rfl p).2.1 ⟨h1, by omega⟩

lemma igrpZ_frame (z : ZMod 3329) {len start p : Nat} (hlen : 0 < len)
    (h : p < start ∨ start + 2 * len ≤ p) (F : Nat → ZMod 3329) :
    igrpZ z len start F p = F p :=
  (igrp_fold_eval z len start hlen F len le_rfl p).2.2 (by omega)

/-! ## NTT: stage evaluation (mirror side)

A stage is `List.length zs` groups at starts `start, start + 2*len, …`;
group `g` acts on `[start + 2*len*g, start + 2*len*(g+1))` with zeta
`zs.getD g 0`. -/

lemma stageZ_eval (len : Nat) (hlen : 0 < len) :
    ∀ (zs : List (ZMod 3329)) (start : Nat) (F : Nat → ZMod 3329) (p : Nat),
      ((p < start ∨ start + 2 * len * zs.length ≤ p →
          stageZ len zs start F p = F p) ∧
       (∀ g r, g < zs.length → p = start + 2 * len * g + r → r < len →
          stageZ len zs start F p = F p + F (p + len) * zs.getD g 0) ∧
       (∀ g r, g < zs.length → p = start + 2 * len * g + r → len ≤ r → r < 2 * len →
          stageZ len zs start F p = F (p - len) - F p * zs.getD g 0)) := by
  intro zs
  induction zs with
  | nil =>
    intro start F p
    refine ⟨fun _ => rfl, fun g r hg => ?_, fun g r hg => ?_⟩
    · rw [List.length_nil] at hg
      exact absurd hg (by omega)
    · rw [List.length_nil] at hg
      exact absurd hg (by omega)
  | cons z zs ih =>
    intro start F p
    rw [List.length_cons]
    simp only [stageZ]
    refine ⟨?_, ?_, ?_⟩
    · intro h
      rw [Nat.mul_succ] at h
      rw [(ih (start + 2 * len) (grpZ z len start F) p).1 (by omega)]
      exact grpZ_frame z hlen (by omega) F
    · intro g r hg hp hr
      cases g with
      | zero =>
        rw [Nat.mul_zero] at hp
        rw [(ih (start + 2 * len) (grpZ z len start F) p).1 (by omega)]
        rw [List.getD_cons_zero]
        exact grpZ_lo z hlen (by omega) (by omega) F
      | succ g =>
        rw [Nat.mul_succ] at hp
        rw [List.getD_cons_succ]
        rw [(ih (start + 2 * len) (grpZ z len start F) p).2.1 g r (by omega) (by omega) hr]
        rw [grpZ_frame z hlen (by omega) F, grpZ_frame z hlen (by omega) F]
    · intro g r hg hp hr1 hr2
      cases g with
      | zero =>
        rw [Nat.mul_zero] at hp
        rw [(ih (start + 2 * len) (grpZ z len start F) p).1 (by omega)]
        rw [List.getD_cons_zero]
        exact grpZ_hi z hlen (by omega) (by omega) F
      | succ g =>
        rw [Nat.mul_succ] at hp
        rw [List.getD_cons_succ]
        rw [(ih (start + 2 * len) (grpZ z len start F) p).2.2 g r (by omega) (by omega) hr1 hr2]
        rw [grpZ_frame z hlen (by omega) F, grpZ_frame z hlen (by omega) F]

lemma istageZ_eval (len : Nat) (hlen : 0 < len) :
    ∀ (zs : List (ZMod 3329)) (start : Nat) (F : Nat → ZMod 3329) (p : Nat),
      ((p < start ∨ start + 2 * len * zs.length ≤ p →
          istageZ len zs start F p = F p) ∧
       (∀ g r, g < zs.length → p = start + 2 * len * g + r → r < len →
          istageZ len zs start F p = F p + F (p + len)) ∧
       (∀ g r, g < zs.length → p = start + 2 * len * g + r → len ≤ r → r < 2 * len →
          istageZ len zs start F p = zs.getD g 0 * (F p - F (p - len)))) := by
  intro zs
  induction zs with
  | nil =>
    intro start F p
    refine ⟨fun _ => rfl, fun g r hg => ?_, fun g r hg => ?_⟩
    · rw [List.length_nil] at hg
      exact absurd hg (by omega)
    · rw [List.length_nil] at hg
      exact absurd hg (by omega)
  | cons z zs ih =>
    intro start F p
    rw [List.length_cons]
    simp only [istageZ]
    refine ⟨?_, ?_, ?_⟩
    · intro h
      rw [Nat.mul_succ] at h
      rw [(ih (start + 2 * len) (igrpZ z len start F) p).1 (by omega)]
      exact igrpZ_frame z hlen (by omega) F
    · intro g r hg hp hr
      cases g with
      | zero =>
        rw [Nat.mul_zero] at hp
        rw [(ih (start + 2 * len) (igrpZ z len start F) p).1 (by omega)]
        exact igrpZ_lo z hlen (by omega) (by omega) F
      | succ g =>
        rw [Nat.mul_succ] at hp
        rw [(ih (start + 2 * len) (igrpZ z len start F) p).2.1 g r (by omega) (by omega) hr]
        rw [igrpZ_frame z hlen (by omega) F, igrpZ_frame z hlen (by omega) F]
    · intro g r hg hp hr1 hr2
      cases g with
      | zero =>
        rw [Nat.mul_zero] at hp
        rw [(ih (start + 2 * len) (igrpZ z len start F) p).1 (by omega)]
        rw [List.getD_cons_zero]
        exact igrpZ_hi z hlen (by omega) (by omega) F
      | succ g =>
        rw [Nat.mul_succ] at hp
        rw [List.getD_cons_succ]
        rw [(ih (start + 2 * len) (igrpZ z len start F) p).2.2 g r (by omega) (by omega) hr1 hr2]
        rw [igrpZ_frame z hlen (by omega) F, igrpZ_frame z hlen (by omega) F]

/-! ## NTT: one inverse stage undoes one forward stage (times 2) -/

lemma index_decomp {len m p : Nat} (hlen : 0 < len) (hm : 2 * len * m = 256)
    (hp : p < 256) : ∃ g r, g < m ∧ r < 2 * len ∧ p = 2 * len * g + r := by
  have hdm := Nat.div_add_mod p (2 * len)
  refine ⟨p / (2 * len), p % (2 * len), ?_, Nat.mod_lt _ (by omega), by omega⟩
  by_contra h
  push_neg at h
  have hmul : 2 * len * m ≤ 2 * len * (p / (2 * len)) :=
    Nat.mul_le_mul (le_refl (2 * len)) h
  rw [hm] at hmul
  omega

lemma pair_inv_fwd {len m : Nat} (hlen : 0 < len) (hm : 2 * len * m = 256)
    {zsF zsI : List (ZMod 3329)} (hF : zsF.length = m) (hI : zsI.length = m)
    (hz : ∀ g, g < m → zsI.getD g 0 * zsF.getD g 0 = -1)
    (F : Nat → ZMod 3329) :
    ∀ p, p < 256 → istageZ len zsI 0 (stageZ len zsF 0 F) p = 2 * F p := by
  intro p hp
  obtain ⟨g, r, hg, hr, hpe⟩ := index_decomp hlen hm hp
  by_cases hcase : r < len
  · rw [(istageZ_eval len hlen zsI 0 _ p).2.1 g r (by rw [hI]; exact hg)
        (by omega) hcase]
    rw [(stageZ_eval len hlen zsF 0 F p).2.1 g r (by rw [hF]; exact hg)
        (by omega) hcase]
    rw [(stageZ_eval len hlen zsF 0 F (p + len)).2.2 g (r + len)
        (by rw [hF]; exact hg) (by omega) (by omega) (by omega)]
    have h1 : p + len - len = p := by omega
    rw [h1]
    ring
  · rw [(istageZ_eval len hlen zsI 0 _ p).2.2 g r (by rw [hI]; exact hg)
        (by omega) (by omega) (by omega)]
    rw [(stageZ_eval len hlen zsF 0 F p).2.2 g r (by rw [hF]; exact hg)
        (by omega) (by omega) (by omega)]
    rw [(stageZ_eval len hlen zsF 0 F (p - len)).2.1 g (r - len)
        (by rw [hF]; exact hg) (by omega) (by omega)]
    have h1 : p - len + len = p := by omega
    rw [h1]
    linear_combination (-2 * F p) * hz g hg

lemma pair_fwd_inv {len m : Nat} (hlen : 0 < len) (hm : 2 * len * m = 256)
    {zsF zsI : List (ZMod 3329)} (hF : zsF.length = m) (hI : zsI.length = m)
    (hz : ∀ g, g < m → zsI.getD g 0 * zsF.getD g 0 = -1)
    (F : Nat → ZMod 3329) :
    ∀ p, p < 256 → stageZ len zsF 0 (istageZ len zsI 0 F) p = 2 * F p := by
  intro p hp
  obtain ⟨g, r, hg, hr, hpe⟩ := index_decomp hlen hm hp
  by_cases hcase : r < len
  · rw [(stageZ_eval len hlen zsF 0 _ p).2.1 g r (by rw [hF]; exact hg)
        (by omega) hcase]
    rw [(istageZ_eval len hlen zsI 0 F p).2.1 g r (by rw [hI]; exact hg)
        (by omega) hcase]
    rw [(istageZ_eval len hlen zsI 0 F (p + len)).2.2 g (r + len)
        (by rw [hI]; exact hg) (by omega) (by omega) (by omega)]
    have h1 : p + len - len = p := by omega
    rw [h1]
    linear_combination (F (p + len) - F p) * hz g hg
  · rw [(stageZ_eval len hlen zsF 0 _ p).2.2 g r (by rw [hF]; exact hg)
        (by omega) (by omega) (by omega)]
    rw [(istageZ_eval len hlen zsI 0 F p).2.2 g r (by rw [hI]; exact hg)
        (by omega) (by omega) (by omega)]
    rw [(istageZ_eval len hlen zsI 0 F (p - len)).2.1 g (r - len)
        (by rw [hI]; exact hg) (by omega) (by omega)]
    have h1 : p - len + len = p := by omega
    rw [h1]
    linear_combination (F (p - len) - F p) * hz g hg

/-! ## NTT: stages only read indices below 256, and are homogeneous -/

lemma stageZ_congr_smul {len m : Nat} (hlen : 0 < len) (hm : 2 * len * m = 256)
    {zs : List (ZMod 3329)} (hzs : zs.length = m) (c : ZMod 3329)
    {G H : Nat → ZMod 3329} (hGH : ∀ x, x < 256 → G x = c * H x) :
    ∀ p, p < 256 → stageZ len zs 0 G p = c * stageZ len zs 0 H p := by
  intro p hp
  obtain ⟨g, r, hg, hr, hpe⟩ := index_decomp hlen hm hp
  have hblock : 2 * len * (g + 1) ≤ 256 := by
    rw [← hm]
    exact Nat.mul_le_mul (le_refl (2 * len)) (by omega)
  rw [Nat.mul_succ] at hblock
  by_cases hcase : r < len
  · rw [(stageZ_eval len hlen zs 0 G p).2.1 g r (by rw [hzs]; exact hg)
        (by omega) hcase,
        (stageZ_eval len hlen zs 0 H p).2.1 g r (by rw [hzs]; exact hg)
        (by omega) hcase,
        hGH p hp, hGH (p + len) (by omega)]
    ring
  · rw [(stageZ_eval len hlen zs 0 G p).2.2 g r (by rw [hzs]; exact hg)
        (by omega) (by omega) (by omega),
        (stageZ_eval len hlen zs 0 H p).2.2 g r (by rw [hzs]; exact hg)
        (by omega) (by omega) (by omega),
        hGH p hp, hGH (p - len) (by omega)]
    ring

lemma istageZ_congr_smul {len m : Nat} (hlen : 0 < len) (hm : 2 * len * m = 256)
    {zs : List (ZMod 3329)} (hzs : zs.length = m) (c : ZMod 3329)
    {G H : Nat → ZMod 3329} (hGH : ∀ x, x < 256 → G x = c * H x) :
    ∀ p, p < 256 → istageZ len zs 0 G p = c * istageZ len zs 0 H p := by
  intro p hp
  obtain ⟨g, r, hg, hr, hpe⟩ := index_decomp hlen hm hp
  have hblock : 2 * len * (g + 1) ≤ 256 := by
    rw [← hm]
    exact Nat.mul_le_mul (le_refl (2 * len)) (by omega)
  rw [Nat.mul_succ] at hblock
  by_cases hcase : r < len
  · rw [(istageZ_eval len hlen zs 0 G p).2.1 g r (by rw [hzs]; exact hg)
        (by omega) hcase,
        (istageZ_eval len hlen zs 0 H p).2.1 g r (by rw [hzs]; exact hg)
        (by omega) hcase,
        hGH p hp, hGH (p + len) (by omega)]
    ring
  · rw [(istageZ_eval len hlen zs 0 G p).2.2 g r (by rw [hzs]; exact hg)
        (by omega) (by omega) (by omega),
        (istageZ_eval len hlen zs 0 H p).2.2 g r (by rw [hzs]; exact hg)
        (by omega) (by omega) (by omega),
        hGH p hp, hGH (p - len) (by omega)]
    ring

/-! ## NTT: lengths and pairing products of the per-stage zeta lists

At stage `len` with `m = 128/len` groups, the forward zeta of group `g`
is `ζ^BitRev7(m+g)` and the inverse zeta is `ζ^BitRev7(2m-1-g)`; since
`BitRev7(m+g) + BitRev7(2m-1-g) = 128` and `ζ^128 ≡ -1 (mod q)`, each
product is `-1`.  The products are checked by evaluation. -/

lemma zetasFZ_length (len : Nat) : (zetasFZ len).length = 128 / len := by
  rw [zetasFZ, List.length_map, nttFwdZetas, List.length_map, List.length_range]

lemma zetasIZ_length (len : Nat) : (zetasIZ len).length = 128 / len := by
  rw [zetasIZ, List.length_map, nttInvZetas, List.length_map, List.length_range]

lemma zpair128 : ∀ g, g < 1 → (zetasIZ 128).getD g 0 * (zetasFZ 128).getD g 0 = -1 := by
  decide

lemma zpair64 : ∀ g, g < 2 → (zetasIZ 64).getD g 0 * (zetasFZ 64).getD g 0 = -1 := by
  decide

lemma zpair32 : ∀ g, g < 4 → (zetasIZ 32).getD g 0 * (zetasFZ 32).getD g 0 = -1 := by
  decide

lemma zpair16 : ∀ g, g < 8 → (zetasIZ 16).getD g 0 * (zetasFZ 16).getD g 0 = -1 := by
  decide

lemma zpair8 : ∀ g, g < 16 → (zetasIZ 8).getD g 0 * (zetasFZ 8).getD g 0 = -1 := by
  decide

lemma zpair4 : ∀ g, g < 32 → (zetasIZ 4).getD g 0 * (zetasFZ 4).getD g 0 = -1 := by
  decide

lemma zpair2 : ∀ g, g < 64 → (zetasIZ 2).getD g 0 * (zetasFZ 2).getD g 0 = -1 := by
  decide

/-! ## NTT: the mirror roundtrips

Each inverse stage undoes the matching forward stage up to a factor 2;
seven stages give `128`, and the final scaling by `3303 = 128⁻¹ mod q`
cancels it. -/

set_option maxHeartbeats 2000000 in
lemma nttZ_roundtrip1 (F : Nat → ZMod 3329) :
    ∀ p, p < 256 → nttInvZ (nttZ F) p = F p := by
  have hG7 : nttZ F = stageZ 2 (zetasFZ 2) 0 (stageZ 4 (zetasFZ 4) 0 (stageZ 8 (zetasFZ 8) 0 (stageZ 16 (zetasFZ 16) 0 (stageZ 32 (zetasFZ 32) 0 (stageZ 64 (zetasFZ 64) 0 (stageZ 128 (zetasFZ 128) 0 (F))))))) := rfl
  have s1 : ∀ p, p < 256 → istageZ 2 (zetasIZ 2) 0 (nttZ F) p = 2 * (stageZ 4 (zetasFZ 4) 0 (stageZ 8 (zetasFZ 8) 0 (stageZ 16 (zetasFZ 16) 0 (stageZ 32 (zetasFZ 32) 0 (stageZ 64 (zetasFZ 64) 0 (stageZ 128 (zetasFZ 128) 0 (F))))))) p := by
    intro p hp
    rw [hG7]
    exact @pair_inv_fwd 2 64 (by norm_num) (by norm_num) (zetasFZ 2) (zetasIZ 2)
      (by rw [zetasFZ_length]) (by rw [zetasIZ_length]) zpair2 (stageZ 4 (zetasFZ 4) 0 (stageZ 8 (zetasFZ 8) 0 (stageZ 16 (zetasFZ 16) 0 (stageZ 32 (zetasFZ 32) 0 (stageZ 64 (zetasFZ 64) 0 (stageZ 128 (zetasFZ 128) 0 (F))))))) p hp
  have s2 : ∀ p, p < 256 → istageZ 4 (zetasIZ 4) 0 (istageZ 2 (zetasIZ 2) 0 (nttZ F)) p = 4 * (stageZ 8 (zetasFZ 8) 0 (stageZ 16 (zetasFZ 16) 0 (stageZ 32 (zetasFZ 32) 0 (stageZ 64 (zetasFZ 64) 0 (stageZ 128 (zetasFZ 128) 0 (F)))))) p := by
    intro p hp
    have h1 := @istageZ_congr_smul 4 32 (by norm_num) (by norm_num) (zetasIZ 4)
      (by rw [zetasIZ_length]) 2 (istageZ 2 (zetasIZ 2) 0 (nttZ F)) (stageZ 4 (zetasFZ 4) 0 (stageZ 8 (zetasFZ 8) 0 (stageZ 16 (zetasFZ 16) 0 (stageZ 32 (zetasFZ 32) 0 (stageZ 64 (zetasFZ 64) 0 (stageZ 128 (zetasFZ 128) 0 (F))))))) s1 p hp
    have h2 := @pair_inv_fwd 4 32 (by norm_num) (by norm_num) (zetasFZ 4) (zetasIZ 4)
      (by rw [zetasFZ_length]) (by rw [zetasIZ_length]) zpair4 (stageZ 8 (zetasFZ 8) 0 (stageZ 16 (zetasFZ 16) 0 (stageZ 32 (zetasFZ 32) 0 (stageZ 64 (zetasFZ 64) 0 (stageZ 128 (zetasFZ 128) 0 (F)))))) p hp
    rw [h1, h2]
    ring
  have s3 : ∀ p, p < 256 → istageZ 8 (zetasIZ 8) 0 (istageZ 4 (zetasIZ 4) 0 (istageZ 2 (zetasIZ 2) 0 (nttZ F))) p = 8 * (stageZ 16 (zetasFZ 16) 0 (stageZ 32 (zetasFZ 32) 0 (stageZ 64 (zetasFZ 64) 0 (stageZ 128 (zetasFZ 128) 0 (F))))) p := by
    intro p hp
    have h1 := @istageZ_congr_smul 8 16 (by norm_num) (by norm_num) (zetasIZ 8)
      (by rw [zetasIZ_length]) 4 (istageZ 4 (zetasIZ 4) 0 (istageZ 2 (zetasIZ 2) 0 (nttZ F))) (stageZ 8 (zetasFZ 8) 0 (stageZ 16 (zetasFZ 16) 0 (stageZ 32 (zetasFZ 32) 0 (stageZ 64 (zetasFZ 64) 0 (stageZ 128 (zetasFZ 128) 0 (F)))))) s2 p hp
    have h2 := @pair_inv_fwd 8 16 (by norm_num) (by norm_num) (zetasFZ 8) (zetasIZ 8)
      (by rw [zetasFZ_length]) (by rw [zetasIZ_length]) zpair8 (stageZ 16 (zetasFZ 16) 0 (stageZ 32 (zetasFZ 32) 0 (stageZ 64 (zetasFZ 64) 0 (stageZ 128 (zetasFZ 128) 0 (F))))) p hp
    rw [h1, h2]
    ring
  have s4 : ∀ p, p < 256 → istageZ 16 (zetasIZ 16) 0 (istageZ 8 (zetasIZ 8) 0 (istageZ 4 (zetasIZ 4) 0 (istageZ 2 (zetasIZ 2) 0 (nttZ F)))) p = 16 * (stageZ 32 (zetasFZ 32) 0 (stageZ 64 (zetasFZ 64) 0 (stageZ 128 (zetasFZ 128) 0 (F)))) p := by
    intro p hp
    have h1 := @istageZ_congr_smul 16 8 (by norm_num) (by norm_num) (zetasIZ 16)
      (by rw [zetasIZ_length]) 8 (istageZ 8 (zetasIZ 8) 0 (istageZ 4 (zetasIZ 4) 0 (istageZ 2 (zetasIZ 2) 0 (nttZ F)))) (stageZ 16 (zetasFZ 16) 0 (stageZ 32 (zetasFZ 32) 0 (stageZ 64 (zetasFZ 64) 0 (stageZ 128 (zetasFZ 128) 0 (F))))) s3 p hp
    have h2 := @pair_inv_fwd 16 8 (by norm_num) (by norm_num) (zetasFZ 16) (zetasIZ 16)
      (by rw [zetasFZ_length]) (by rw [zetasIZ_length]) zpair16 (stageZ 32 (zetasFZ 32) 0 (stageZ 64 (zetasFZ 64) 0 (stageZ 128 (zetasFZ 128) 0 (F)))) p hp
    rw [h1, h2]
    ring
  have s5 : ∀ p, p < 256 → istageZ 32 (zetasIZ 32) 0 (istageZ 16 (zetasIZ 16) 0 (istageZ 8 (zetasIZ 8) 0 (istageZ 4 (zetasIZ 4) 0 (istageZ 2 (zetasIZ 2) 0 (nttZ F))))) p = 32 * (stageZ 64 (zetasFZ 64) 0 (stageZ 128 (zetasFZ 128) 0 (F))) p := by
    intro p hp
    have h1 := @istageZ_congr_smul 32 4 (by norm_num) (by norm_num) (zetasIZ 32)
      (by rw [zetasIZ_length]) 16 (istageZ 16 (zetasIZ 16) 0 (istageZ 8 (zetasIZ 8) 0 (istageZ 4 (zetasIZ 4) 0 (istageZ 2 (zetasIZ 2) 0 (nttZ F))))) (stageZ 32 (zetasFZ 32) 0 (stageZ 64 (zetasFZ 64) 0 (stageZ 128 (zetasFZ 128) 0 (F)))) s4 p hp
    have h2 := @pair_inv_fwd 32 4 (by norm_num) (by norm_num) (zetasFZ 32) (zetasIZ 32)
      (by rw [zetasFZ_length]) (by rw [zetasIZ_length]) zpair32 (stageZ 64 (zetasFZ 64) 0 (stageZ 128 (zetasFZ 128) 0 (F))) p hp
    rw [h1, h2]
    ring
  have s6 : ∀ p, p < 256 → istageZ 64 (zetasIZ 64) 0 (istageZ 32 (zetasIZ 32) 0 (istageZ 16 (zetasIZ 16) 0 (istageZ 8 (zetasIZ 8) 0 (istageZ 4 (zetasIZ 4) 0 (istageZ 2 (zetasIZ 2) 0 (nttZ F)))))) p = 64 * (stageZ 128 (zetasFZ 128) 0 (F)) p := by
    intro p hp
    have h1 := @istageZ_congr_smul 64 2 (by norm_num) (by norm_num) (zetasIZ 64)
      (by rw [zetasIZ_length]) 32 (istageZ 32 (zetasIZ 32) 0 (istageZ 16 (zetasIZ 16) 0 (istageZ 8 (zetasIZ 8) 0 (istageZ 4 (zetasIZ 4) 0 (istageZ 2 (zetasIZ 2) 0 (nttZ F)))))) (stageZ 64 (zetasFZ 64) 0 (stageZ 128 (zetasFZ 128) 0 (F))) s5 p hp
    have h2 := @pair_inv_fwd 64 2 (by norm_num) (by norm_num) (zetasFZ 64) (zetasIZ 64)
      (by rw [zetasFZ_length]) (by rw [zetasIZ_length]) zpair64 (stageZ 128 (zetasFZ 128) 0 (F)) p hp
    rw [h1, h2]
    ring
  have s7 : ∀ p, p < 256 → istageZ 128 (zetasIZ 128) 0 (istageZ 64 (zetasIZ 64) 0 (istageZ 32 (zetasIZ 32) 0 (istageZ 16 (zetasIZ 16) 0 (istageZ 8 (zetasIZ 8) 0 (istageZ 4 (zetasIZ 4) 0 (istageZ 2 (zetasIZ 2) 0 (nttZ F))))))) p = 128 * (F) p := by
    intro p hp
    have h1 := @istageZ_congr_smul 128 1 (by norm_num) (by norm_num) (zetasIZ 128)
      (by rw [zetasIZ_length]) 64 (istageZ 64 (zetasIZ 64) 0 (istageZ 32 (zetasIZ 32) 0 (istageZ 16 (zetasIZ 16) 0 (istageZ 8 (zetasIZ 8) 0 (istageZ 4 (zetasIZ 4) 0 (istageZ 2 (zetasIZ 2) 0 (nttZ F))))))) (stageZ 128 (zetasFZ 128) 0 (F)) s6 p hp
    have h2 := @pair_inv_fwd 128 1 (by norm_num) (by norm_num) (zetasFZ 128) (zetasIZ 128)
      (by rw [zetasFZ_length]) (by rw [zetasIZ_length]) zpair128 (F) p hp
    rw [h1, h2]
    ring
  intro p hp
  have e : nttInvCoreZ (nttZ F) p = istageZ 128 (zetasIZ 128) 0 (istageZ 64 (zetasIZ 64) 0 (istageZ 32 (zetasIZ 32) 0 (istageZ 16 (zetasIZ 16) 0 (istageZ 8 (zetasIZ 8) 0 (istageZ 4 (zetasIZ 4) 0 (istageZ 2 (zetasIZ 2) 0 (nttZ F))))))) p := rfl
  show nttInvCoreZ (nttZ F) p * 3303 = F p
  rw [e, s7 p hp]
  have hone : (128 : ZMod 3329) * 3303 = 1 := by decide
  linear_combination (F p) * hone

set_option maxHeartbeats 2000000 in
lemma nttZ_roundtrip2 (F : Nat → ZMod 3329) :
    ∀ p, p < 256 → nttZ (nttInvZ F) p = F p := by
  have hC7 : nttInvCoreZ F = istageZ 128 (zetasIZ 128) 0 (istageZ 64 (zetasIZ 64) 0 (istageZ 32 (zetasIZ 32) 0 (istageZ 16 (zetasIZ 16) 0 (istageZ 8 (zetasIZ 8) 0 (istageZ 4 (zetasIZ 4) 0 (istageZ 2 (zetasIZ 2) 0 (F))))))) := rfl
  have t0 : ∀ x, x < 256 → nttInvZ F x = 3303 * (istageZ 128 (zetasIZ 128) 0 (istageZ 64 (zetasIZ 64) 0 (istageZ 32 (zetasIZ 32) 0 (istageZ 16 (zetasIZ 16) 0 (istageZ 8 (zetasIZ 8) 0 (istageZ 4 (zetasIZ 4) 0 (istageZ 2 (zetasIZ 2) 0 (F)))))))) x := fun x _ => mul_comm _ _
  have t1 : ∀ p, p < 256 → stageZ 128 (zetasFZ 128) 0 (nttInvZ F) p = 3277 * (istageZ 64 (zetasIZ 64) 0 (istageZ 32 (zetasIZ 32) 0 (istageZ 16 (zetasIZ 16) 0 (istageZ 8 (zetasIZ 8) 0 (istageZ 4 (zetasIZ 4) 0 (istageZ 2 (zetasIZ 2) 0 (F))))))) p := by
    intro p hp
    have h1 := @stageZ_congr_smul 128 1 (by norm_num) (by norm_num) (zetasFZ 128)
      (by rw [zetasFZ_length]) 3303 (nttInvZ F) (istageZ 128 (zetasIZ 128) 0 (istageZ 64 (zetasIZ 64) 0 (istageZ 32 (zetasIZ 32) 0 (istageZ 16 (zetasIZ 16) 0 (istageZ 8 (zetasIZ 8) 0 (istageZ 4 (zetasIZ 4) 0 (istageZ 2 (zetasIZ 2) 0 (F)))))))) t0 p hp
    have h2 := @pair_fwd_inv 128 1 (by norm_num) (by norm_num) (zetasFZ 128) (zetasIZ 128)
      (by rw [zetasFZ_length]) (by rw [zetasIZ_length]) zpair128 (istageZ 64 (zetasIZ 64) 0 (istageZ 32 (zetasIZ 32) 0 (istageZ 16 (zetasIZ 16) 0 (istageZ 8 (zetasIZ 8) 0 (istageZ 4 (zetasIZ 4) 0 (istageZ 2 (zetasIZ 2) 0 (F))))))) p hp
    rw [h1, h2]
    have hc : (3303 : ZMod 3329) * 2 = 3277 := by decide
    linear_combination ((istageZ 64 (zetasIZ 64) 0 (istageZ 32 (zetasIZ 32) 0 (istageZ 16 (zetasIZ 16) 0 (istageZ 8 (zetasIZ 8) 0 (istageZ 4 (zetasIZ 4) 0 (istageZ 2 (zetasIZ 2) 0 (F))))))) p) * hc
  have t2 : ∀ p, p < 256 → stageZ 64 (zetasFZ 64) 0 (stageZ 128 (zetasFZ 128) 0 (nttInvZ F)) p = 3225 * (istageZ 32 (zetasIZ 32) 0 (istageZ 16 (zetasIZ 16) 0 (istageZ 8 (zetasIZ 8) 0 (istageZ 4 (zetasIZ 4) 0 (istageZ 2 (zetasIZ 2) 0 (F)))))) p := by
    intro p hp
    have h1 := @stageZ_congr_smul 64 2 (by norm_num) (by norm_num) (zetasFZ 64)
      (by rw [zetasFZ_length]) 3277 (stageZ 128 (zetasFZ 128) 0 (nttInvZ F)) (istageZ 64 (zetasIZ 64) 0 (istageZ 32 (zetasIZ 32) 0 (istageZ 16 (zetasIZ 16) 0 (istageZ 8 (zetasIZ 8) 0 (istageZ 4 (zetasIZ 4) 0 (istageZ 2 (zetasIZ 2) 0 (F))))))) t1 p hp
    have h2 := @pair_fwd_inv 64 2 (by norm_num) (by norm_num) (zetasFZ 64) (zetasIZ 64)
      (by rw [zetasFZ_length]) (by rw [zetasIZ_length]) zpair64 (istageZ 32 (zetasIZ 32) 0 (istageZ 16 (zetasIZ 16) 0 (istageZ 8 (zetasIZ 8) 0 (istageZ 4 (zetasIZ 4) 0 (istageZ 2 (zetasIZ 2) 0 (F)))))) p hp
    rw [h1, h2]
    have hc : (3277 : ZMod 3329) * 2 = 3225 := by decide
    linear_combination ((istageZ 32 (zetasIZ 32) 0 (istageZ 16 (zetasIZ 16) 0 (istageZ 8 (zetasIZ 8) 0 (istageZ 4 (zetasIZ 4) 0 (istageZ 2 (zetasIZ 2) 0 (F)))))) p) * hc
  have t3 : ∀ p, p < 256 → stageZ 32 (zetasFZ 32) 0 (stageZ 64 (zetasFZ 64) 0 (stageZ 128 (zetasFZ 128) 0 (nttInvZ F))) p = 3121 * (istageZ 16 (zetasIZ 16) 0 (istageZ 8 (zetasIZ 8) 0 (istageZ 4 (zetasIZ 4) 0 (istageZ 2 (zetasIZ 2) 0 (F))))) p := by
    intro p hp
    have h1 := @stageZ_congr_smul 32 4 (by norm_num) (by norm_num) (zetasFZ 32)
      (by rw [zetasFZ_length]) 3225 (stageZ 64 (zetasFZ 64) 0 (stageZ 128 (zetasFZ 128) 0 (nttInvZ F))) (istageZ 32 (zetasIZ 32) 0 (istageZ 16 (zetasIZ 16) 0 (istageZ 8 (zetasIZ 8) 0 (istageZ 4 (zetasIZ 4) 0 (istageZ 2 (zetasIZ 2) 0 (F)))))) t2 p hp
    have h2 := @pair_fwd_inv 32 4 (by norm_num) (by norm_num) (zetasFZ 32) (zetasIZ 32)
      (by rw [zetasFZ_length]) (by rw [zetasIZ_length]) zpair32 (istageZ 16 (zetasIZ 16) 0 (istageZ 8 (zetasIZ 8) 0 (istageZ 4 (zetasIZ 4) 0 (istageZ 2 (zetasIZ 2) 0 (F))))) p hp
    rw [h1, h2]
    have hc : (3225 : ZMod 3329) * 2 = 3121 := by decide
    linear_combination ((istageZ 16 (zetasIZ 16) 0 (istageZ 8 (zetasIZ 8) 0 (istageZ 4 (zetasIZ 4) 0 (istageZ 2 (zetasIZ 2) 0 (F))))) p) * hc
  have t4 : ∀ p, p < 256 → stageZ 16 (zetasFZ 16) 0 (stageZ 32 (zetasFZ 32) 0 (stageZ 64 (zetasFZ 64) 0 (stageZ 128 (zetasFZ 128) 0 (nttInvZ F)))) p = 2913 * (istageZ 8 (zetasIZ 8) 0 (istageZ 4 (zetasIZ 4) 0 (istageZ 2 (zetasIZ 2) 0 (F)))) p := by
    intro p hp
    have h1 := @stageZ_congr_smul 16 8 (by norm_num) (by norm_num) (zetasFZ 16)
      (by rw [zetasFZ_length]) 3121 (stageZ 32 (zetasFZ 32) 0 (stageZ 64 (zetasFZ 64) 0 (stageZ 128 (zetasFZ 128) 0 (nttInvZ F)))) (istageZ 16 (zetasIZ 16) 0 (istageZ 8 (zetasIZ 8) 0 (istageZ 4 (zetasIZ 4) 0 (istageZ 2 (zetasIZ 2) 0 (F))))) t3 p hp
    have h2 := @pair_fwd_inv 16 8 (by norm_num) (by norm_num) (zetasFZ 16) (zetasIZ 16)
      (by rw [zetasFZ_length]) (by rw [zetasIZ_length]) zpair16 (istageZ 8 (zetasIZ 8) 0 (istageZ 4 (zetasIZ 4) 0 (istageZ 2 (zetasIZ 2) 0 (F)))) p hp
    rw [h1, h2]
    have hc : (3121 : ZMod 3329) * 2 = 2913 := by decide
    linear_combination ((istageZ 8 (zetasIZ 8) 0 (istageZ 4 (zetasIZ 4) 0 (istageZ 2 (zetasIZ 2) 0 (F)))) p) * hc
  have t5 : ∀ p, p < 256 → stageZ 8 (zetasFZ 8) 0 (stageZ 16 (zetasFZ 16) 0 (stageZ 32 (zetasFZ 32) 0 (stageZ 64 (zetasFZ 64) 0 (stageZ 128 (zetasFZ 128) 0 (nttInvZ F))))) p = 2497 * (istageZ 4 (zetasIZ 4) 0 (istageZ 2 (zetasIZ 2) 0 (F))) p := by
    intro p hp
    have h1 := @stageZ_congr_smul 8 16 (by norm_num) (by norm_num) (zetasFZ 8)
      (by rw [zetasFZ_length]) 2913 (stageZ 16 (zetasFZ 16) 0 (stageZ 32 (zetasFZ 32) 0 (stageZ 64 (zetasFZ 64) 0 (stageZ 128 (zetasFZ 128) 0 (nttInvZ F))))) (istageZ 8 (zetasIZ 8) 0 (istageZ 4 (zetasIZ 4) 0 (istageZ 2 (zetasIZ 2) 0 (F)))) t4 p hp
    have h2 := @pair_fwd_inv 8 16 (by norm_num) (by norm_num) (zetasFZ 8) (zetasIZ 8)
      (by rw [zetasFZ_length]) (by rw [zetasIZ_length]) zpair8 (istageZ 4 (zetasIZ 4) 0 (istageZ 2 (zetasIZ 2) 0 (F))) p hp
    rw [h1, h2]
    have hc : (2913 : ZMod 3329) * 2 = 2497 := by decide
    linear_combination ((istageZ 4 (zetasIZ 4) 0 (istageZ 2 (zetasIZ 2) 0 (F))) p) * hc
  have t6 : ∀ p, p < 256 → stageZ 4 (zetasFZ 4) 0 (stageZ 8 (zetasFZ 8) 0 (stageZ 16 (zetasFZ 16) 0 (stageZ 32 (zetasFZ 32) 0 (stageZ 64 (zetasFZ 64) 0 (stageZ 128 (zetasFZ 128) 0 (nttInvZ F)))))) p = 1665 * (istageZ 2 (zetasIZ 2) 0 (F)) p := by
    intro p hp
    have h1 := @stageZ_congr_smul 4 32 (by norm_num) (by norm_num) (zetasFZ 4)
      (by rw [zetasFZ_length]) 2497 (stageZ 8 (zetasFZ 8) 0 (stageZ 16 (zetasFZ 16) 0 (stageZ 32 (zetasFZ 32) 0 (stageZ 64 (zetasFZ 64) 0 (stageZ 128 (zetasFZ 128) 0 (nttInvZ F)))))) (istageZ 4 (zetasIZ 4) 0 (istageZ 2 (zetasIZ 2) 0 (F))) t5 p hp
    have h2 := @pair_fwd_inv 4 32 (by norm_num) (by norm_num) (zetasFZ 4) (zetasIZ 4)
      (by rw [zetasFZ_length]) (by rw [zetasIZ_length]) zpair4 (istageZ 2 (zetasIZ 2) 0 (F)) p hp
    rw [h1, h2]
    have hc : (2497 : ZMod 3329) * 2 = 1665 := by decide
    linear_combination ((istageZ 2 (zetasIZ 2) 0 (F)) p) * hc
  have t7 : ∀ p, p < 256 → stageZ 2 (zetasFZ 2) 0 (stageZ 4 (zetasFZ 4) 0 (stageZ 8 (zetasFZ 8) 0 (stageZ 16 (zetasFZ 16) 0 (stageZ 32 (zetasFZ 32) 0 (stageZ 64 (zetasFZ 64) 0 (stageZ 128 (zetasFZ 128) 0 (nttInvZ F))))))) p = 1 * (F) p := by
    intro p hp
    have h1 := @stageZ_congr_smul 2 64 (by norm_num) (by norm_num) (zetasFZ 2)
      (by rw [zetasFZ_length]) 1665 (stageZ 4 (zetasFZ 4) 0 (stageZ 8 (zetasFZ 8) 0 (stageZ 16 (zetasFZ 16) 0 (stageZ 32 (zetasFZ 32) 0 (stageZ 64 (zetasFZ 64) 0 (stageZ 128 (zetasFZ 128) 0 (nttInvZ F))))))) (istageZ 2 (zetasIZ 2) 0 (F)) t6 p hp
    have h2 := @pair_fwd_inv 2 64 (by norm_num) (by norm_num) (zetasFZ 2) (zetasIZ 2)
      (by rw [zetasFZ_length]) (by rw [zetasIZ_length]) zpair2 (F) p hp
    rw [h1, h2]
    have hc : (1665 : ZMod 3329) * 2 = 1 := by decide
    linear_combination ((F) p) * hc
  intro p hp
  have e : nttZ (nttInvZ F) p = stageZ 2 (zetasFZ 2) 0 (stageZ 4 (zetasFZ 4) 0 (stageZ 8 (zetasFZ 8) 0 (stageZ 16 (zetasFZ 16) 0 (stageZ 32 (zetasFZ 32) 0 (stageZ 64 (zetasFZ 64) 0 (stageZ 128 (zetasFZ 128) 0 (nttInvZ F))))))) p := rfl
  rw [e, t7 p hp, one_mul]

/-! ## NTT: transport between the `Nat` code and the mirror -/

lemma ntt_rel_butterfly {f : Nat → Nat} {F : Nat → ZMod 3329} (hrel : ntt_rel f F)
    {zeta : Nat} (hz : zeta < Q) {len j : Nat} (hlen : 0 < len) (hj : j + len < 256) :
    ntt_rel (nttButterfly zeta len j f) (bfZ (zeta : ZMod 3329) len j F) := by
  intro p hp
  have hjQ := hrel j (by omega)
  have hjlQ := hrel (j + len) hj
  by_cases h1 : p = j
  · rw [h1]
    unfold nttButterfly bfZ
    rw [Function.update_same, Function.update_same]
    refine ⟨zAdd_lt hjQ.1 (zMul_lt hjlQ.1 hz), ?_⟩
    rw [zAddCast hjQ.1 (zMul_lt hjlQ.1 hz), zMulCast hjlQ.1 hz, hjQ.2, hjlQ.2]
  · by_cases h2 : p = j + len
    · rw [h2]
      unfold nttButterfly bfZ
      rw [Function.update_noteq (by omega), Function.update_same,
          Function.update_noteq (by omega), Function.update_same]
      refine ⟨zSub_lt hjQ.1 (zMul_lt hjlQ.1 hz), ?_⟩
      rw [zSubCast hjQ.1 (zMul_lt hjlQ.1 hz), zMulCast hjlQ.1 hz, hjQ.2, hjlQ.2]
    · unfold nttButterfly bfZ
      rw [Function.update_noteq h1, Function.update_noteq h2,
          Function.update_noteq h1, Function.update_noteq h2]
      exact hrel p hp

lemma ntt_rel_inv_butterfly {f : Nat → Nat} {F : Nat → ZMod 3329} (hrel : ntt_rel f F)
    {zeta : Nat} (hz : zeta < Q) {len j : Nat} (hlen : 0 < len) (hj : j + len < 256) :
    ntt_rel (nttInvButterfly zeta len j f) (ibfZ (zeta : ZMod 3329) len j F) := by
  intro p hp
  have hjQ := hrel j (by omega)
  have hjlQ := hrel (j + len) hj
  by_cases h1 : p = j
  · rw [h1]
    unfold nttInvButterfly ibfZ
    rw [Function.update_noteq (by omega), Function.update_same,
        Function.update_noteq (by omega), Function.update_same]
    refine ⟨zAdd_lt hjQ.1 hjlQ.1, ?_⟩
    rw [zAddCast hjQ.1 hjlQ.1, hjQ.2, hjlQ.2]
  · by_cases h2 : p = j + len
    · rw [h2]
      unfold nttInvButterfly ibfZ
      rw [Function.update_same, Function.update_same]
      refine ⟨zMul_lt hz (zSub_lt hjlQ.1 hjQ.1), ?_⟩
      rw [zMulCast hz (zSub_lt hjlQ.1 hjQ.1), zSubCast hjlQ.1 hjQ.1, hjQ.2, hjlQ.2]
    · unfold nttInvButterfly ibfZ
      rw [Function.update_noteq h2, Function.update_noteq h1,
          Function.update_noteq h2, Function.update_noteq h1]
      exact hrel p hp

lemma ntt_rel_group {f : Nat → Nat} {F : Nat → ZMod 3329} (hrel : ntt_rel f F)
    {zeta : Nat} (hz : zeta < Q) {len start : Nat} (hlen : 0 < len)
    (hend : start + 2 * len ≤ 256) :
    ntt_rel (nttGroup zeta len start f) (grpZ (zeta : ZMod 3329) len start F) := by
  suffices h : ∀ n, n ≤ len → ntt_rel
      ((List.range n).foldl (fun g jj => nttButterfly zeta len (start + jj) g) f)
      ((List.range n).foldl (fun g jj => bfZ (zeta : ZMod 3329) len (start + jj) g) F) from
    h len le_rfl
  intro n
  induction n with
  | zero =>
    intro _
    simpa [List.range_zero] using hrel
  | succ n ih =>
    intro hn
    rw [List.range_succ]
    simp only [List.foldl_append, List.foldl_cons, List.foldl_nil]
    have hj : start + n + len < 256 := by omega
    exact ntt_rel_butterfly (ih (by omega)) hz hlen hj

lemma ntt_rel_inv_group {f : Nat → Nat} {F : Nat → ZMod 3329} (hrel : ntt_rel f F)
    {zeta : Nat} (hz : zeta < Q) {len start : Nat} (hlen : 0 < len)
    (hend : start + 2 * len ≤ 256) :
    ntt_rel (nttInvGroup zeta len start f) (igrpZ (zeta : ZMod 3329) len start F) := by
  suffices h : ∀ n, n ≤ len → ntt_rel
      ((List.range n).foldl (fun g jj => nttInvButterfly zeta len (start + jj) g) f)
      ((List.range n).foldl (fun g jj => ibfZ (zeta : ZMod 3329) len (start + jj) g) F) from
    h len le_rfl
  intro n
  induction n with
  | zero =>
    intro _
    simpa [List.range_zero] using hrel
  | succ n ih =>
    intro hn
    rw [List.range_succ]
    simp only [List.foldl_append, List.foldl_cons, List.foldl_nil]
    have hj : start + n + len < 256 := by omega
    exact ntt_rel_inv_butterfly (ih (by omega)) hz hlen hj

lemma ntt_rel_stage (len : Nat) (hlen : 0 < len) :
    ∀ (zsN : List Nat) (start : Nat) (f : Nat → Nat) (F : Nat → ZMod 3329),
      ntt_rel f F → (∀ z ∈ zsN, z < Q) → start + 2 * len * zsN.length ≤ 256 →
      ntt_rel (nttStageAux len zsN start f)
        (stageZ len (zsN.map (fun x : Nat => (x : ZMod 3329))) start F) := by
  intro zsN
  induction zsN with
  | nil =>
    intro start f F hrel _ _
    simpa [nttStageAux, stageZ, List.map_nil] using hrel
  | cons z zs ih =>
    intro start f F hrel hq hb
    rw [List.length_cons, Nat.mul_succ] at hb
    rw [List.map_cons]
    simp only [nttStageAux, stageZ]
    exact ih (start + 2 * len) _ _
      (ntt_rel_group hrel (hq z (List.mem_cons_self z zs)) hlen (by omega))
      (fun w hw => hq w (List.mem_cons_of_mem z hw)) (by omega)

lemma ntt_rel_inv_stage (len : Nat) (hlen : 0 < len) :
    ∀ (zsN : List Nat) (start : Nat) (f : Nat → Nat) (F : Nat → ZMod 3329),
      ntt_rel f F → (∀ z ∈ zsN, z < Q) → start + 2 * len * zsN.length ≤ 256 →
      ntt_rel (nttInvStageAux len zsN start f)
        (istageZ len (zsN.map (fun x : Nat => (x : ZMod 3329))) start F) := by
  intro zsN
  induction zsN with
  | nil =>
    intro start f F hrel _ _
    simpa [nttInvStageAux, istageZ, List.map_nil] using hrel
  | cons z zs ih =>
    intro start f F hrel hq hb
    rw [List.length_cons, Nat.mul_succ] at hb
    rw [List.map_cons]
    simp only [nttInvStageAux, istageZ]
    exact ih (start + 2 * len) _ _
      (ntt_rel_inv_group hrel (hq z (List.mem_cons_self z zs)) hlen (by omega))
      (fun w hw => hq w (List.mem_cons_of_mem z hw)) (by omega)

lemma nttFwdZetas_length (len : Nat) : (nttFwdZetas len).length = 128 / len := by
  rw [nttFwdZetas, List.length_map, List.length_range]

lemma nttInvZetas_length (len : Nat) : (nttInvZetas len).length = 128 / len := by
  rw [nttInvZetas, List.length_map, List.length_range]

set_option maxHeartbeats 2000000 in
lemma ntt_rel_ntt {f : Nat → Nat} {F : Nat → ZMod 3329} (hrel : ntt_rel f F) :
    ntt_rel (ntt f) (nttZ F) := by
  show ntt_rel
    (nttStageAux 2 (nttFwdZetas 2) 0
        (nttStageAux 4 (nttFwdZetas 4) 0
        (nttStageAux 8 (nttFwdZetas 8) 0
        (nttStageAux 16 (nttFwdZetas 16) 0
        (nttStageAux 32 (nttFwdZetas 32) 0
        (nttStageAux 64 (nttFwdZetas 64) 0
        (nttStageAux 128 (nttFwdZetas 128) 0
        (f))))))))
    (stageZ 2 ((nttFwdZetas 2).map (fun x : Nat => (x : ZMod 3329))) 0
        (stageZ 4 ((nttFwdZetas 4).map (fun x : Nat => (x : ZMod 3329))) 0
        (stageZ 8 ((nttFwdZetas 8).map (fun x : Nat => (x : ZMod 3329))) 0
        (stageZ 16 ((nttFwdZetas 16).map (fun x : Nat => (x : ZMod 3329))) 0
        (stageZ 32 ((nttFwdZetas 32).map (fun x : Nat => (x : ZMod 3329))) 0
        (stageZ 64 ((nttFwdZetas 64).map (fun x : Nat => (x : ZMod 3329))) 0
        (stageZ 128 ((nttFwdZetas 128).map (fun x : Nat => (x : ZMod 3329))) 0
        (F))))))))
  exact
    ntt_rel_stage 2 (by norm_num) (nttFwdZetas 2) 0 _ _
      (ntt_rel_stage 4 (by norm_num) (nttFwdZetas 4) 0 _ _
      (ntt_rel_stage 8 (by norm_num) (nttFwdZetas 8) 0 _ _
      (ntt_rel_stage 16 (by norm_num) (nttFwdZetas 16) 0 _ _
      (ntt_rel_stage 32 (by norm_num) (nttFwdZetas 32) 0 _ _
      (ntt_rel_stage 64 (by norm_num) (nttFwdZetas 64) 0 _ _
      (ntt_rel_stage 128 (by norm_num) (nttFwdZetas 128) 0 _ _
      (hrel)
      (nttFwdZetas_all_lt 128) (by rw [nttFwdZetas_length]))
      (nttFwdZetas_all_lt 64) (by rw [nttFwdZetas_length]))
      (nttFwdZetas_all_lt 32) (by rw [nttFwdZetas_length]))
      (nttFwdZetas_all_lt 16) (by rw [nttFwdZetas_length]))
      (nttFwdZetas_all_lt 8) (by rw [nttFwdZetas_length]))
      (nttFwdZetas_all_lt 4) (by rw [nttFwdZetas_length]))
      (nttFwdZetas_all_lt 2) (by rw [nttFwdZetas_length])

set_option maxHeartbeats 2000000 in
lemma ntt_rel_inv_core {f : Nat → Nat} {F : Nat → ZMod 3329} (hrel : ntt_rel f F) :
    ntt_rel (nttInvCore f) (nttInvCoreZ F) := by
  show ntt_rel
    (nttInvStageAux 128 (nttInvZetas 128) 0
        (nttInvStageAux 64 (nttInvZetas 64) 0
        (nttInvStageAux 32 (nttInvZetas 32) 0
        (nttInvStageAux 16 (nttInvZetas 16) 0
        (nttInvStageAux 8 (nttInvZetas 8) 0
        (nttInvStageAux 4 (nttInvZetas 4) 0
        (nttInvStageAux 2 (nttInvZetas 2) 0
        (f))))))))
    (istageZ 128 ((nttInvZetas 128).map (fun x : Nat => (x : ZMod 3329))) 0
        (istageZ 64 ((nttInvZetas 64).map (fun x : Nat => (x : ZMod 3329))) 0
        (istageZ 32 ((nttInvZetas 32).map (fun x : Nat => (x : ZMod 3329))) 0
        (istageZ 16 ((nttInvZetas 16).map (fun x : Nat => (x : ZMod 3329))) 0
        (istageZ 8 ((nttInvZetas 8).map (fun x : Nat => (x : ZMod 3329))) 0
        (istageZ 4 ((nttInvZetas 4).map (fun x : Nat => (x : ZMod 3329))) 0
        (istageZ 2 ((nttInvZetas 2).map (fun x : Nat => (x : ZMod 3329))) 0
        (F))))))))
  exact
    ntt_rel_inv_stage 128 (by norm_num) (nttInvZetas 128) 0 _ _
      (ntt_rel_inv_stage 64 (by norm_num) (nttInvZetas 64) 0 _ _
      (ntt_rel_inv_stage 32 (by norm_num) (nttInvZetas 32) 0 _ _
      (ntt_rel_inv_stage 16 (by norm_num) (nttInvZetas 16) 0 _ _
      (ntt_rel_inv_stage 8 (by norm_num) (nttInvZetas 8) 0 _ _
      (ntt_rel_inv_stage 4 (by norm_num) (nttInvZetas 4) 0 _ _
      (ntt_rel_inv_stage 2 (by norm_num) (nttInvZetas 2) 0 _ _
      (hrel)
      (nttInvZetas_all_lt 2) (by rw [nttInvZetas_length]))
      (nttInvZetas_all_lt 4) (by rw [nttInvZetas_length]))
      (nttInvZetas_all_lt 8) (by rw [nttInvZetas_length]))
      (nttInvZetas_all_lt 16) (by rw [nttInvZetas_length]))
      (nttInvZetas_all_lt 32) (by rw [nttInvZetas_length]))
      (nttInvZetas_all_lt 64) (by rw [nttInvZetas_length]))
      (nttInvZetas_all_lt 128) (by rw [nttInvZetas_length])

lemma ntt_rel_ntt_inv {f : Nat → Nat} {F : Nat → ZMod 3329} (hrel : ntt_rel f F) :
    ntt_rel (ntt_inv f) (nttInvZ F) := by
  have hcore := ntt_rel_inv_core hrel
  intro p hp
  have hc := hcore p hp
  refine ⟨zMul_lt hc.1 (by decide), ?_⟩
  show ((zMul (nttInvCore f p) 3303 : Nat) : ZMod 3329) = nttInvCoreZ F p * 3303
  rw [zMulCast hc.1 (by decide), hc.2]
  norm_num

/-- C3: on polynomials with all 256 coefficients canonical (below `q`),
`ntt_inv (ntt f) = f` and `ntt (ntt_inv f) = f` coefficientwise. -/
theorem c3_ntt_roundtrip (f : Nat → Nat) (hf : ∀ p, p < 256 → f p < Q) :
    (∀ p, p < 256 → ntt_inv (ntt f) p = f p) ∧
    (∀ p, p < 256 → ntt (ntt_inv f) p = f p) := by
  have hrel : ntt_rel f (fun x => ((f x : Nat) : ZMod 3329)) :=
    fun p hp => ⟨hf p hp, rfl⟩
  constructor
  · intro p hp
    have h1 := ntt_rel_ntt_inv (ntt_rel_ntt hrel) p hp
    have h2 := nttZ_roundtrip1 (fun x => ((f x : Nat) : ZMod 3329)) p hp
    have hcast : ((ntt_inv (ntt f) p : Nat) : ZMod 3329) = ((f p : Nat) : ZMod 3329) := by
      rw [h1.2, h2]
    have hv := congrArg ZMod.val hcast
    have hlt1 : ntt_inv (ntt f) p < 3329 := h1.1
    have hlt2 : f p < 3329 := hf p hp
    rw [ZMod.val_cast_of_lt hlt1, ZMod.val_cast_of_lt hlt2] at hv
    exact hv
  · intro p hp
    have h1 := ntt_rel_ntt (ntt_rel_ntt_inv hrel) p hp
    have h2 := nttZ_roundtrip2 (fun x => ((f x : Nat) : ZMod 3329)) p hp
    have hcast : ((ntt (ntt_inv f) p : Nat) : ZMod 3329) = ((f p : Nat) : ZMod 3329) := by
      rw [h1.2, h2]
    have hv := congrArg ZMod.val hcast
    have hlt1 : ntt (ntt_inv f) p < 3329 := h1.1
    have hlt2 : f p < 3329 := hf p hp
    rw [ZMod.val_cast_of_lt hlt1, ZMod.val_cast_of_lt hlt2] at hv
    exact hv

/-- C3 witness: the roundtrip theorem applied to the zero polynomial. -/
theorem c3_ntt_roundtrip_witness :
    (∀ p, p < 256 → (fun _ : Nat => 0) p < Q) ∧
    ((∀ p, p < 256 → ntt_inv (ntt (fun _ : Nat => 0)) p = (fun _ : Nat => 0) p) ∧
     (∀ p, p < 256 → ntt (ntt_inv (fun _ : Nat => 0)) p = (fun _ : Nat => 0) p)) :=
  ⟨fun _ _ => by show (0 : Nat) < Q; decide,
   c3_ntt_roundtrip (fun _ : Nat => 0) (fun _ _ => by show (0 : Nat) < Q; decide)⟩

/-! ## SHA3 output lengths (needed for the stored-hash slice) -/

lemma stateBytes_length (A : List Nat) : (stateBytes A).length = 200 := by
  rw [stateBytes, List.length_map, List.length_range]

lemma squeezeAux_of_le {rate outLen : Nat} (h : outLen ≤ rate) (A : List Nat) :
    squeezeAux rate A outLen = (stateBytes A).take outLen := by
  rw [squeezeAux]
  exact dif_pos (Or.inl h)

lemma hashH_length (msg : List Nat) : (hashH msg).length = 32 := by
  rw [hashH, sha3_256, sponge, squeezeAux_of_le (by norm_num), List.length_take,
      stateBytes_length]
  norm_num

/-! ## Little-endian values of constant lists -/

lemma lval_replicate_zero (b : Nat) : ∀ n, lval b (List.replicate n 0) = 0 := by
  intro n
  induction n with
  | zero => rfl
  | succ n ih =>
    rw [List.replicate_succ, lval_cons, ih]
    omega

lemma lval_replicate_top (b : Nat) (hb : 1 ≤ b) :
    ∀ n, lval b (List.replicate n (b - 1)) = b ^ n - 1 := by
  intro n
  induction n with
  | zero => rfl
  | succ n ih =>
    rw [List.replicate_succ, lval_cons, ih, pow_succ]
    have hpow : 1 ≤ b ^ n := Nat.one_le_pow n b (by omega)
    have hmul : b * (b ^ n - 1) = b ^ n * b - b := by
      rw [Nat.mul_sub, Nat.mul_one, Nat.mul_comm]
    rw [hmul]
    have hble : b ≤ b ^ n * b := Nat.le_mul_of_pos_left b hpow
    omega

/-! ## Decoding constant blocks -/

lemma decodeRaw_12_zeros : decodeRaw 12 (List.replicate 384 0) = List.replicate 256 0 := by
  have hspec := decodeRaw_spec 12 (by norm_num) (List.replicate 384 0)
    (fun b hb => by rw [List.eq_of_mem_replicate hb]; norm_num)
    (by rw [List.length_replicate])
  obtain ⟨hlen, hlt, hval⟩ := hspec
  refine lval_inj (2 ^ 12) (by norm_num) _ _ ?_ hlt ?_ ?_
  · rw [hlen, List.length_replicate]
  · intro x hx
    rw [List.eq_of_mem_replicate hx]
    norm_num
  · rw [hval, lval_replicate_zero, lval_replicate_zero]

lemma byte_decode_12_zeros :
    byte_decode 12 (List.replicate 384 0) = some (List.replicate 256 0) := by
  rw [byte_decode_eq_some_iff]
  refine ⟨decodeRaw_12_zeros.symm, ?_⟩
  intro e he
  rw [decodeRaw_12_zeros] at he
  rw [List.eq_of_mem_replicate he]
  norm_num [Q]

lemma decodeRaw_12_top : decodeRaw 12 (List.replicate 384 255) = List.replicate 256 4095 := by
  have hspec := decodeRaw_spec 12 (by norm_num) (List.replicate 384 255)
    (fun b hb => by rw [List.eq_of_mem_replicate hb]; norm_num)
    (by rw [List.length_replicate])
  obtain ⟨hlen, hlt, hval⟩ := hspec
  refine lval_inj (2 ^ 12) (by norm_num) _ _ ?_ hlt ?_ ?_
  · rw [hlen, List.length_replicate]
  · intro x hx
    rw [List.eq_of_mem_replicate hx]
    norm_num
  · rw [hval]
    have h1 : (255 : Nat) = 256 - 1 := by norm_num
    have h2 : (4095 : Nat) = 2 ^ 12 - 1 := by norm_num
    rw [h1, h2, lval_replicate_top 256 (by norm_num), lval_replicate_top (2 ^ 12) (by norm_num)]
    have h3 : (256 : Nat) ^ 384 = 2 ^ 3072 := by
      rw [show (256 : Nat) = 2 ^ 8 by norm_num, ← pow_mul]
    have h4 : ((2 : Nat) ^ 12) ^ 256 = 2 ^ 3072 := by
      rw [← pow_mul]
    rw [h3, h4]

lemma byte_decode_12_top : byte_decode 12 (List.replicate 384 255) = none := by
  rw [byte_decode_eq_none_iff]
  refine ⟨4095, ?_, ?_⟩
  · rw [decodeRaw_12_top]
    exact List.mem_replicate.mpr ⟨by norm_num, rfl⟩
  · rw [if_neg (by omega)]
    norm_num [Q]

/-! ## `decodeVec`: totality below `d = 12` -/

lemma decodeVec_isSome {d : Nat} (hd1 : 1 ≤ d) (hd : d < 12) :
    ∀ (n : Nat) (bytes : List Nat), (∀ b ∈ bytes, b < 256) →
      32 * d * n ≤ bytes.length → (decodeVec d n bytes).isSome := by
  intro n
  induction n with
  | zero => intro bytes _ _; rfl
  | succ n ih =>
    intro bytes hB hlen
    rw [decodeVec]
    have htake : (bytes.take (32 * d)).length = 32 * d := by
      rw [List.length_take]
      rw [Nat.mul_succ] at hlen
      omega
    rw [byte_decode_isSome_of_lt12 hd1 hd _
      (fun b hb => hB b (List.take_subset _ _ hb)) htake]
    rw [Option.some_bind]
    have hrest := ih (bytes.drop (32 * d))
      (fun b hb => hB b (List.drop_subset _ _ hb))
      (by rw [List.length_drop]; rw [Nat.mul_succ] at hlen; omega)
    obtain ⟨ps, hps⟩ := Option.isSome_iff_exists.mp hrest
    rw [hps, Option.map_some']
    rfl

/-! ## Decryption output shape and decapsulation success -/

lemma decryptBody_decode1 (K du dv : Nat) (s_hat u0 : List (List Nat)) (v0 : List Nat) :
    byte_decode 1 (decryptBody K du dv s_hat u0 v0)
      = some (decodeRaw 1 (decryptBody K du dv s_hat u0 v0)) := by
  unfold decryptBody
  have hlen : (compress_vector 1 (polySub (decompress_vector dv v0)
      (nttInvL (dot_t_prod K s_hat ((u0.map (decompress_vector du)).map nttL))))).length
      = 256 := by
    rw [compress_vector, List.length_map, polySub, List.length_map, List.length_range]
  have hspec := byte_encode_spec 1 _ hlen
  exact byte_decode_isSome_of_lt12 (by norm_num) (by norm_num) _ hspec.2.1
    (by rw [hspec.1])

lemma decaps_isSome_iff (K e1 e2 du dv : Nat) (hdu1 : 1 ≤ du) (hdu : du < 12)
    (hdv1 : 1 ≤ dv) (hdv : dv < 12) (dk ct : List Nat)
    (hct : ∀ b ∈ ct, b < 256) (hclen : ct.length = 32 * (du * K + dv)) :
    (ml_kem_decaps K e1 e2 du dv dk ct).isSome ↔
    ((decodeVec 12 K (dk.take (384 * K))).isSome ∧
     (decodeVec 12 K ((dk.drop (384 * K)).take (384 * K + 32))).isSome) := by
  rw [Nat.mul_add] at hclen
  have hmulK : 32 * du * K = 32 * (du * K) := by ring
  have hU : (decodeVec du K (ct.take (32 * du * K))).isSome := by
    refine decodeVec_isSome hdu1 hdu K _ (fun b hb => hct b (List.take_subset _ _ hb)) ?_
    rw [List.length_take]
    omega
  obtain ⟨u0, hu0⟩ := Option.isSome_iff_exists.mp hU
  have hV : byte_decode dv ((ct.drop (32 * du * K)).take (32 * dv))
      = some (decodeRaw dv ((ct.drop (32 * du * K)).take (32 * dv))) := by
    refine byte_decode_isSome_of_lt12 hdv1 hdv _
      (fun b hb => hct b (List.drop_subset _ _ (List.take_subset _ _ hb))) ?_
    rw [List.length_take, List.length_drop]
    omega
  rw [ml_kem_decaps, k_pke_decrypt, hu0, Option.some_bind, hV, Option.some_bind]
  cases hS : decodeVec 12 K (dk.take (384 * K)) with
  | none =>
    rw [Option.map_none', Option.none_bind]
    simp
  | some sHat =>
    rw [Option.map_some', Option.some_bind, k_pke_encrypt]
    cases hE : decodeVec 12 K ((dk.drop (384 * K)).take (384 * K + 32)) with
    | none =>
      rw [Option.none_bind, Option.map_none']
      simp
    | some tHat =>
      rw [Option.some_bind, decryptBody_decode1, Option.map_some', Option.map_some']
      simp

/-- C2: for every decapsulation key and every pair of well-formed
ciphertexts of the correct length, success of `ml_kem_decaps` does not
depend on the ciphertext; and whenever it succeeds and the re-encrypted
ciphertext differs from `ct`, the returned secret is the implicit
rejection value `J(z ∥ ct)` with `z` the final 32 bytes of `dk`. -/
theorem c2_decaps_ciphertext_independent :
    (∀ K e1 e2 du dv dk ct1 ct2, 1 ≤ du → du < 12 → 1 ≤ dv → dv < 12 →
       (∀ b ∈ ct1, b < 256) → ct1.length = 32 * (du * K + dv) →
       (∀ b ∈ ct2, b < 256) → ct2.length = 32 * (du * K + dv) →
       ((ml_kem_decaps K e1 e2 du dv dk ct1).isSome ↔
        (ml_kem_decaps K e1 e2 du dv dk ct2).isSome)) ∧
    (∀ K e1 e2 du dv dk ct k cPrime mPrime,
       ml_kem_decaps K e1 e2 du dv dk ct = some k →
       k_pke_decrypt K du dv (dk.take (384 * K)) ct = some mPrime →
       k_pke_encrypt K e1 e2 du dv ((dk.drop (384 * K)).take (384 * K + 32)) mPrime
           (hashG (mPrime ++ (dk.drop (768 * K + 32)).take 32)).2 = some cPrime →
       ct ≠ cPrime →
       k = hashJ ((dk.drop (768 * K + 64)).take 32) ct) := by
  constructor
  · intro K e1 e2 du dv dk ct1 ct2 hdu1 hdu hdv1 hdv h1 h1l h2 h2l
    rw [decaps_isSome_iff K e1 e2 du dv hdu1 hdu hdv1 hdv dk ct1 h1 h1l,
        decaps_isSome_iff K e1 e2 du dv hdu1 hdu hdv1 hdv dk ct2 h2 h2l]
  · intro K e1 e2 du dv dk ct k cPrime mPrime hdecaps hdec henc hne
    rw [ml_kem_decaps, hdec, Option.some_bind, henc, Option.map_some'] at hdecaps
    rw [if_neg hne] at hdecaps
    exact ((Option.some.injEq _ _).mp hdecaps).symm

/-- C2 witness: ciphertext-independence instantiated on the all-zero
decapsulation key of ML-KEM-512 and two concrete ciphertexts. -/
theorem c2_decaps_ciphertext_independent_witness :
    (ml_kem_decaps 2 192 128 10 4 (List.replicate 1632 0) (List.replicate 768 0)).isSome ↔
    (ml_kem_decaps 2 192 128 10 4 (List.replicate 1632 0) (List.replicate 768 255)).isSome :=
  c2_decaps_ciphertext_independent.1 2 192 128 10 4 (List.replicate 1632 0)
    (List.replicate 768 0) (List.replicate 768 255)
    (by norm_num) (by norm_num) (by norm_num) (by norm_num)
    (fun b hb => by rw [List.eq_of_mem_replicate hb]; norm_num)
    (by rw [List.length_replicate])
    (fun b hb => by rw [List.eq_of_mem_replicate hb]; norm_num)
    (by rw [List.length_replicate])

/-! ## The malformed key accepted by `try_from_bytes` -/

lemma dkBad_dk_pke : (dkBad 2).take (384 * 2) = List.replicate 768 255 := by
  rw [dkBad, List.append_assoc, List.append_assoc]
  exact List.take_left' (by rw [List.length_replicate])

lemma dkBad_ek_slice : ((dkBad 2).drop (384 * 2)).take (384 * 2 + 32) = ekZero 2 := by
  rw [dkBad, List.append_assoc, List.append_assoc]
  rw [List.drop_left' (by rw [List.length_replicate])]
  exact List.take_left' (by rw [ekZero, List.length_replicate])

lemma dkBad_hash_slice : ((dkBad 2).drop (768 * 2 + 32)).take 32 = hashH (ekZero 2) := by
  rw [dkBad, List.append_assoc (List.replicate (384 * 2) 255 ++ ekZero 2)]
  rw [List.drop_left' (by
    rw [List.length_append, List.length_replicate, ekZero, List.length_replicate])]
  exact List.take_left' (hashH_length _)

lemma ekZero_blocks_ok : ekBlocksOk 2 (ekZero 2) = true := by
  rw [ekBlocksOk, show List.range 2 = [0, 1] from rfl]
  rw [List.all_cons, List.all_cons, List.all_nil]
  have h0 : List.take 384 (List.drop (384 * 0) (ekZero 2)) = List.replicate 384 0 := by
    rw [ekZero, Nat.mul_zero, List.drop_zero, List.take_replicate]
    norm_num
  have h1 : List.take 384 (List.drop (384 * 1) (ekZero 2)) = List.replicate 384 0 := by
    rw [ekZero, List.drop_replicate, List.take_replicate]
    norm_num
  rw [h0, h1, byte_decode_12_zeros]
  rfl

lemma decodeVec_12_top (n : Nat) :
    decodeVec 12 (n + 1) (List.replicate 768 255) = none := by
  rw [decodeVec]
  have htake : (List.replicate 768 255).take (32 * 12) = List.replicate 384 255 := by
    rw [List.take_replicate]
    norm_num
  rw [htake, byte_decode_12_top, Option.none_bind]

/-- C2 (counterexample): `DecapsKey::try_from_bytes` accepts a key whose
`s_hat` blocks are all `0xFF` (it validates only the embedded `ek` and
its hash), yet `ml_kem_decaps` on that key returns an error: the claim
that decapsulation never fails for an accepted key is false. -/
theorem c2_counterexample :
    tryFromBytesDK 2 (dkBad 2) = some (dkBad 2) ∧
    ml_kem_decaps 2 192 128 10 4 (dkBad 2) (List.replicate 768 0) = none := by
  constructor
  · rw [tryFromBytesDK, dkBad_ek_slice, dkBad_hash_slice]
    rw [encapsKeyFromBytes, if_pos ekZero_blocks_ok, Option.some_bind, if_pos rfl]
  · rw [ml_kem_decaps, k_pke_decrypt, dkBad_dk_pke]
    have hct_take : (List.replicate 768 0).take (32 * 10 * 2) = List.replicate 640 0 := by
      rw [List.take_replicate]
      norm_num
    have hct_drop : ((List.replicate 768 0).drop (32 * 10 * 2)).take (32 * 4)
        = List.replicate 128 0 := by
      rw [List.drop_replicate, List.take_replicate]
      norm_num
    rw [hct_take, hct_drop]
    have hU : (decodeVec 10 2 (List.replicate 640 0)).isSome := by
      refine decodeVec_isSome (by norm_num) (by norm_num) 2 _
        (fun b hb => by rw [List.eq_of_mem_replicate hb]; norm_num) ?_
      rw [List.length_replicate]
    obtain ⟨u0, hu0⟩ := Option.isSome_iff_exists.mp hU
    rw [hu0, Option.some_bind]
    rw [byte_decode_isSome_of_lt12 (by norm_num) (by norm_num) (List.replicate 128 0)
      (fun b hb => by rw [List.eq_of_mem_replicate hb]; norm_num)
      (by rw [List.length_replicate]), Option.some_bind]
    rw [show decodeVec 12 2 (List.replicate 768 255) = none from decodeVec_12_top 1,
        Option.map_none', Option.none_bind]

/-- Known-answer anchor for the modelled SHA3-256: the FIPS 202 digest
of the empty message. -/
theorem sha3_256_empty :
    sha3_256 [] = [167, 255, 198, 248, 191, 30, 215, 102, 81, 193, 71, 86,
      160, 97, 214, 98, 245, 128, 255, 77, 228, 59, 73, 250, 130, 216, 10,
      75, 128, 248, 67, 74] := by
  rw [sha3_256, sponge]
  rw [absorbBlocks]
  rw [dif_neg (by decide)]
  rw [absorbBlocks]
  rw [dif_pos (by decide)]
  rw [squeezeAux_of_le (by norm_num)]
  decide
